import Mathlib

/-!
Verification of the text-protocol bridge of an Apple Mail MCP server.

The bridge builds AppleScript automation scripts from typed parameters and
parses the delimited text the scripts print back into typed records
(messages, mailboxes, accounts, attachments).  This file gives a shallow
embedding of that bridge:

* JavaScript strings are modelled as lists of characters (`JStr`);
  `String.prototype.split` on a non-empty string separator, `includes`,
  `indexOf`/`substring`, `trim`, `Array.prototype.join` and
  `Array.prototype.filter(Boolean)` are given faithful executable models.
* The four response parsers (`parseEmailMessages`, `parseMailboxes`,
  `parseAccounts`, `parseAttachments`) are translated statement by
  statement from the service module.
* The operation facade (`getEmailById`, `sendEmail`, `moveEmail`,
  `setReadStatus`) is modelled as a function of the subprocess outcome:
  `Except e out` stands for the promise returned by
  `executeAppleScriptFile` (resolved with the trimmed stdout, or rejected
  with an error message).
-/

namespace AppleMailMCP

/-- JavaScript strings are modelled as lists of characters. -/
abbrev JStr := List Char

/-- Conversion from a Lean string literal to the character-list model. -/
def toL (s : String) : JStr := s.data

/-- Leftmost occurrence of `sep` in a string: the part strictly before the
occurrence and the part strictly after it, or `none` when `sep` does not
occur.  For a non-empty `sep` this is the occurrence that JavaScript's
`indexOf` and `split` locate. -/
def splitFirst (sep : JStr) : JStr → Option (JStr × JStr)
  | [] => none
  | c :: rest =>
    if sep.isPrefixOf (c :: rest) then
      some ([], (c :: rest).drop sep.length)
    else
      (splitFirst sep rest).map (fun pq => (c :: pq.1, pq.2))

/-- Fuel-driven iteration of `splitFirst`.  With fuel at least the length
of the string this computes JavaScript's `String.prototype.split` for a
non-empty string separator. -/
def jsplitAux : Nat → JStr → JStr → List JStr
  | 0, _, s => [s]
  | fuel + 1, sep, s =>
    match splitFirst sep s with
    | none => [s]
    | some pq => pq.1 :: jsplitAux fuel sep pq.2

/-- JavaScript `s.split(sep)` for a non-empty string separator `sep`. -/
def jsplit (sep s : JStr) : List JStr := jsplitAux (s.length + 1) sep s

/-- JavaScript `Array.prototype.join(sep)`. -/
def joinSep (sep : JStr) : List JStr → JStr
  | [] => []
  | [x] => x
  | x :: y :: ys => x ++ sep ++ joinSep sep (y :: ys)

/-- The whitespace characters stripped by `String.prototype.trim` that can
occur in this text protocol. -/
def isJsWs (c : Char) : Bool :=
  c = ' ' || c = '\t' || c = '\n' || c = '\r' || c = '\x0b' || c = '\x0c'

/-- JavaScript `s.trim()` (restricted to the ASCII whitespace above). -/
def jtrim (s : JStr) : JStr :=
  ((s.dropWhile isJsWs).reverse.dropWhile isJsWs).reverse

/-- JavaScript truthiness of a possibly-undefined string field:
`undefined` and the empty string are falsy. -/
def truthy : Option JStr → Bool
  | some s => !s.isEmpty
  | none => false

/-! ### Basic properties of `splitFirst` and `jsplit` -/

theorem prefixOf_true_iff {l₁ l₂ : JStr} : l₁.isPrefixOf l₂ = true ↔ l₁ <+: l₂ :=
  List.isPrefixOf_iff_prefix

theorem splitFirst_eq_append {sep : JStr} :
    ∀ {s p q : JStr}, splitFirst sep s = some (p, q) → s = p ++ sep ++ q := by
  intro s
  induction s with
  | nil => intro p q h; simp [splitFirst] at h
  | cons c rest ih =>
    intro p q h
    rw [splitFirst] at h
    split at h
    · rename_i hpre
      rw [Option.some.injEq, Prod.mk.injEq] at h
      obtain ⟨hp, hq⟩ := h
      obtain ⟨t, ht⟩ := prefixOf_true_iff.mp hpre
      subst hp
      rw [← hq, ← ht, List.nil_append, List.drop_left]
    · rename_i hpre
      rcases hm : splitFirst sep rest with _ | ⟨p', q'⟩
      · rw [hm] at h; simp at h
      · rw [hm] at h
        simp only [Option.map_some', Option.some.injEq, Prod.mk.injEq] at h
        obtain ⟨hp, hq⟩ := h
        have hr := ih hm
        subst hp hq
        simp [hr]

theorem splitFirst_length_lt {sep : JStr} (hsep : sep ≠ []) {s p q : JStr}
    (h : splitFirst sep s = some (p, q)) : q.length < s.length := by
  have hs := splitFirst_eq_append h
  have : 1 ≤ sep.length := by
    cases sep with
    | nil => exact absurd rfl hsep
    | cons a l => simp
  subst hs
  simp only [List.length_append]
  omega

theorem splitFirst_self_append {sep : JStr} (hsep : sep ≠ []) (x : JStr) :
    splitFirst sep (sep ++ x) = some ([], x) := by
  cases hs : sep with
  | nil => exact absurd hs hsep
  | cons c rest =>
    rw [← hs]
    have hne : sep ++ x = c :: (rest ++ x) := by rw [hs]; simp
    rw [hne, splitFirst]
    have hpre : sep.isPrefixOf (c :: (rest ++ x)) = true := by
      rw [prefixOf_true_iff, ← hne]
      exact ⟨x, rfl⟩
    rw [if_pos hpre, ← hne, List.drop_left]

/-- No occurrence of `w` inside `s`. -/
def SubstrFree (w s : JStr) : Prop := ∀ t, t <:+ s → ¬ w <+: t

theorem splitFirst_eq_none_iff {sep : JStr} (hsep : sep ≠ []) :
    ∀ {s : JStr}, splitFirst sep s = none ↔ SubstrFree sep s := by
  intro s
  induction s with
  | nil =>
    simp only [splitFirst, SubstrFree, true_iff]
    intro t ht hw
    rw [List.suffix_nil] at ht
    subst ht
    rw [List.prefix_nil] at hw
    exact hsep hw
  | cons c rest ih =>
    rw [splitFirst]
    constructor
    · intro h t ht hw
      split at h
      · simp at h
      · rename_i hpre
        rcases List.suffix_cons_iff.mp ht with rfl | hts
        · exact hpre (prefixOf_true_iff.mpr hw)
        · rcases hm : splitFirst sep rest with _ | pq
          · exact (ih.mp hm) t hts hw
          · rw [hm] at h; simp at h
    · intro h
      have hpre : ¬ sep.isPrefixOf (c :: rest) = true := by
        intro hp
        exact h (c :: rest) (List.suffix_refl _) (prefixOf_true_iff.mp hp)
      rw [if_neg hpre]
      have : splitFirst sep rest = none := by
        rw [ih]
        intro t ht hw
        exact h t (ht.trans (List.suffix_cons c rest)) hw
      rw [this]
      rfl

/-- The occurrence found in `s` is still the one found after extending `s`
on the right. -/
theorem splitFirst_append_right {sep : JStr} :
    ∀ {s p q : JStr}, splitFirst sep s = some (p, q) →
      ∀ x, splitFirst sep (s ++ x) = some (p, q ++ x) := by
  intro s
  induction s with
  | nil => intro p q h x; simp [splitFirst] at h
  | cons c rest ih =>
    intro p q h x
    rw [splitFirst] at h
    have hcx : (c :: rest) ++ x = c :: (rest ++ x) := rfl
    rw [hcx, splitFirst]
    split at h
    · rename_i hpre
      rw [Option.some.injEq, Prod.mk.injEq] at h
      obtain ⟨hp, hq⟩ := h
      obtain ⟨t, ht⟩ := prefixOf_true_iff.mp hpre
      have hpre' : sep.isPrefixOf (c :: (rest ++ x)) = true := by
        rw [prefixOf_true_iff]
        exact ⟨t ++ x, by rw [← List.append_assoc, ht, hcx]⟩
      rw [if_pos hpre']
      have hlen : sep.length ≤ (c :: rest).length := by
        have h2 := congrArg List.length ht
        simp only [List.length_append] at h2
        omega
      rw [← hcx, List.drop_append_of_le_length hlen]
      rw [← hp, ← hq]
    · rename_i hpre
      rcases hm : splitFirst sep rest with _ | ⟨p', q'⟩
      · rw [hm] at h; simp at h
      · rw [hm] at h
        simp only [Option.map_some', Option.some.injEq, Prod.mk.injEq] at h
        obtain ⟨hp, hq⟩ := h
        have hlen : sep.length ≤ rest.length := by
          have := congrArg List.length (splitFirst_eq_append hm)
          simp only [List.length_append] at this
          omega
        have hpre' : ¬ sep.isPrefixOf (c :: (rest ++ x)) = true := by
          intro hp'
          apply hpre
          rw [prefixOf_true_iff] at hp' ⊢
          rw [List.prefix_iff_eq_take] at hp' ⊢
          have hle : sep.length ≤ (c :: rest).length := by
            simp only [List.length_cons]
            omega
          rw [← hcx, List.take_append_of_le_length hle] at hp'
          exact hp'
        rw [if_neg hpre', ih hm x]
        simp [← hp, ← hq]

theorem jsplitAux_succ_none {fuel : Nat} {sep s : JStr} (h : splitFirst sep s = none) :
    jsplitAux (fuel + 1) sep s = [s] := by
  rw [jsplitAux, h]

theorem jsplitAux_succ_some {fuel : Nat} {sep s p q : JStr}
    (h : splitFirst sep s = some (p, q)) :
    jsplitAux (fuel + 1) sep s = p :: jsplitAux fuel sep q := by
  rw [jsplitAux, h]

theorem jsplitAux_fuel {sep : JStr} (hsep : sep ≠ []) :
    ∀ (n : Nat) (s : JStr), s.length ≤ n → ∀ f₁ f₂, s.length ≤ f₁ → s.length ≤ f₂ →
      jsplitAux f₁ sep s = jsplitAux f₂ sep s := by
  intro n
  induction n with
  | zero =>
    intro s hs f₁ f₂ _ _
    have hnil : s = [] := by
      cases s with
      | nil => rfl
      | cons a l => simp at hs
    subst hnil
    cases f₁ <;> cases f₂ <;> simp [jsplitAux, splitFirst]
  | succ n ih =>
    intro s hs f₁ f₂ h₁ h₂
    cases s with
    | nil => cases f₁ <;> cases f₂ <;> simp [jsplitAux, splitFirst]
    | cons a l =>
      have hlen : (a :: l).length ≥ 1 := by simp
      cases f₁ with
      | zero => omega
      | succ f₁' =>
        cases f₂ with
        | zero => omega
        | succ f₂' =>
          rcases hm : splitFirst sep (a :: l) with _ | ⟨p, q⟩
          · rw [jsplitAux_succ_none hm, jsplitAux_succ_none hm]
          · have hq := splitFirst_length_lt hsep hm
            have hqn : q.length ≤ n := by
              simp only [List.length_cons] at hs hq
              omega
            rw [jsplitAux_succ_some hm, jsplitAux_succ_some hm,
              ih q hqn f₁' f₂' (by omega) (by omega)]

theorem jsplit_of_none {sep s : JStr} (h : splitFirst sep s = none) :
    jsplit sep s = [s] := by
  rw [jsplit, jsplitAux_succ_none h]

theorem jsplit_of_some {sep s p q : JStr} (hsep : sep ≠ [])
    (h : splitFirst sep s = some (p, q)) :
    jsplit sep s = p :: jsplit sep q := by
  rw [jsplit, jsplitAux_succ_some h]
  have hq := splitFirst_length_lt hsep h
  rw [jsplit, jsplitAux_fuel hsep s.length q (by omega) s.length (q.length + 1) (by omega)
    (by omega)]

theorem jsplit_ne_nil {sep s : JStr} (hsep : sep ≠ []) : jsplit sep s ≠ [] := by
  rcases h : splitFirst sep s with _ | ⟨p, q⟩
  · rw [jsplit_of_none h]; simp
  · rw [jsplit_of_some hsep h]; simp

/-- `join(sep)` undoes `split(sep)`. -/
theorem joinSep_jsplit {sep : JStr} (hsep : sep ≠ []) :
    ∀ (n : Nat) (s : JStr), s.length ≤ n → joinSep sep (jsplit sep s) = s := by
  intro n
  induction n with
  | zero =>
    intro s hs
    have : s = [] := by
      cases s with
      | nil => rfl
      | cons a l => simp at hs
    subst this
    rw [jsplit_of_none (by simp [splitFirst])]
    rfl
  | succ n ih =>
    intro s hs
    rcases h : splitFirst sep s with _ | ⟨p, q⟩
    · rw [jsplit_of_none h]; rfl
    · rw [jsplit_of_some hsep h]
      have hq := splitFirst_length_lt hsep h
      have hjq : joinSep sep (jsplit sep q) = q := ih q (by omega)
      have hne := jsplit_ne_nil (s := q) hsep
      rcases hj : jsplit sep q with _ | ⟨y, ys⟩
      · exact absurd hj hne
      · rw [hj] at hjq
        have hstep : joinSep sep (p :: y :: ys) = p ++ sep ++ joinSep sep (y :: ys) := rfl
        rw [hstep, hjq, ← splitFirst_eq_append h]

/-! ### Occurrences across concatenation boundaries

The marker strings of the wire format have two shape properties that make
the global split well behaved: a start marker is a newline-free word
followed by one newline (so it has no non-trivial overlap with itself and
cannot start inside a newline-terminated chunk), and an end marker is a
newline-free word (so an occurrence can never span a line boundary). -/

theorem prefix_append_cons {w u r : JStr} {c : Char} (h : w <+: (u ++ c :: r)) :
    w <+: u ∨ ∃ z, w = u ++ c :: z := by
  obtain ⟨zz, hzz⟩ := h
  rcases List.append_eq_append_iff.mp hzz with ⟨a', ha1, _⟩ | ⟨c', hc1, hc2⟩
  · exact Or.inl ⟨a', ha1.symm⟩
  · cases c' with
    | nil => left; rw [hc1, List.append_nil]
    | cons d cs =>
      right
      have hdc : c = d ∧ r = cs ++ zz := by
        have h2 : c :: r = d :: (cs ++ zz) := hc2
        exact ⟨by injection h2, by injection h2⟩
      exact ⟨cs, by rw [hc1, hdc.1]⟩

theorem suffix_snoc {t l : JStr} {c : Char} (h : t <:+ (l ++ [c])) (ht : t ≠ []) :
    ∃ u, u <:+ l ∧ t = u ++ [c] := by
  obtain ⟨a, ha⟩ := h
  rcases List.eq_nil_or_concat t with rfl | ⟨t₀, d, rfl⟩
  · exact absurd rfl ht
  · rw [List.concat_eq_append, ← List.append_assoc] at ha
    obtain ⟨h1, h2⟩ := List.append_inj' ha (by simp)
    have hd : d = c := by injection h2
    exact ⟨t₀, ⟨a, h1⟩, by rw [List.concat_eq_append, hd]⟩

/-- No occurrence of a newline-free word `w` can start inside the
newline-terminated chunk `l ++ ['\n']` when `w` does not occur in the
newline-free line `l`, regardless of what follows the chunk. -/
theorem chunk_no_hit {w l : JStr} (hw : '\n' ∉ w)
    (hfree : SubstrFree w l) :
    ∀ t r, t ≠ [] → t <:+ (l ++ ['\n']) → ¬ w <+: (t ++ r) := by
  intro t r ht hsuf hpre
  obtain ⟨u, hu, rfl⟩ := suffix_snoc hsuf ht
  have hpre2 : w <+: (u ++ '\n' :: r) := by
    rw [List.append_assoc] at hpre
    exact hpre
  rcases prefix_append_cons hpre2 with hwu | ⟨z, hz⟩
  · exact hfree u hu hwu
  · exact hw (by rw [hz]; simp)

/-- Skipping a block `b` in which (and across whose right boundary) the
separator cannot start. -/
theorem splitFirst_append_skip {sep b r : JStr}
    (hb : ∀ t, t ≠ [] → t <:+ b → ¬ sep <+: (t ++ r)) :
    splitFirst sep (b ++ r) = (splitFirst sep r).map (fun pq => (b ++ pq.1, pq.2)) := by
  induction b with
  | nil =>
    simp only [List.nil_append]
    cases splitFirst sep r with
    | none => rfl
    | some pq => simp
  | cons c b' ih =>
    have hcb : (c :: b') ++ r = c :: (b' ++ r) := rfl
    rw [hcb, splitFirst]
    have hpre : ¬ sep.isPrefixOf (c :: (b' ++ r)) = true := by
      intro hp
      refine hb (c :: b') (by simp) (List.suffix_refl _) ?_
      have hp2 := prefixOf_true_iff.mp hp
      rw [← hcb] at hp2
      exact hp2
    rw [if_neg hpre, ih (fun t htne hts => hb t htne (hts.trans (List.suffix_cons c b')))]
    cases splitFirst sep r with
    | none => rfl
    | some pq => simp

/-- A newline-free word followed by a newline has no non-trivial border:
no proper non-empty part of it is both a prefix and a suffix. -/
theorem snoc_nl_no_border {w : JStr} (hw : '\n' ∉ w) {t : JStr}
    (hp : t <+: (w ++ ['\n'])) (hs : t <:+ (w ++ ['\n'])) : t = [] ∨ t = w ++ ['\n'] := by
  rcases List.eq_nil_or_concat t with rfl | ⟨t₀, d, rfl⟩
  · exact Or.inl rfl
  · right
    obtain ⟨u, _, hu2⟩ := suffix_snoc hs (by simp)
    have hd : d = '\n' := by
      rw [List.concat_eq_append] at hu2
      have h2 := (List.append_inj' hu2 (by simp)).2
      injection h2
    subst hd
    rw [List.concat_eq_append] at hp ⊢
    obtain ⟨zz, hzz⟩ := hp
    rcases List.eq_nil_or_concat zz with rfl | ⟨z₀, e, rfl⟩
    · rw [List.append_nil] at hzz
      exact hzz
    · exfalso
      apply hw
      simp only [List.concat_eq_append, ← List.append_assoc] at hzz
      have h3 := (List.append_inj' hzz (by simp)).1
      rw [← h3]
      simp

/-- A fragment free of the separator, followed by a literal separator:
the split happens exactly at the boundary.  Needs the no-border property
of the separator so that no occurrence can span the boundary. -/
theorem splitFirst_frag_marker {sep f x : JStr} (hsep : sep ≠ [])
    (hnb : ∀ t, t <+: sep → t <:+ sep → t = [] ∨ t = sep)
    (hf : splitFirst sep f = none) :
    splitFirst sep (f ++ (sep ++ x)) = some (f, x) := by
  have hfree := (splitFirst_eq_none_iff hsep).mp hf
  have hb : ∀ t, t ≠ [] → t <:+ f → ¬ sep <+: (t ++ (sep ++ x)) := by
    intro t htne hts hpre
    by_cases hlen : sep.length ≤ t.length
    · apply hfree t hts
      rw [List.prefix_iff_eq_take] at hpre ⊢
      rw [List.take_append_of_le_length hlen] at hpre
      exact hpre
    · push_neg at hlen
      have hsp : sep = t ++ sep.take (sep.length - t.length) := by
        rw [List.prefix_iff_eq_take, List.take_append_eq_append_take,
          List.take_of_length_le (le_of_lt hlen),
          List.take_append_of_le_length (by omega)] at hpre
        exact hpre
      have hv1 : sep.take (sep.length - t.length) <+: sep :=
        ⟨sep.drop (sep.length - t.length), List.take_append_drop _ _⟩
      have hv2 : sep.take (sep.length - t.length) <:+ sep := ⟨t, hsp.symm⟩
      have hvlen : (sep.take (sep.length - t.length)).length = sep.length - t.length := by
        rw [List.length_take]
        omega
      rcases hnb _ hv1 hv2 with hv | hv
      · rw [hv] at hvlen
        simp at hvlen
        have htlen : t.length = 0 := by
          have hslen : 1 ≤ sep.length := by
            cases sep with
            | nil => exact absurd rfl hsep
            | cons a l => simp
          omega
        exact htne (List.eq_nil_of_length_eq_zero htlen)
      · rw [hv] at hsp
        have : t.length = 0 := by
          have := congrArg List.length hsp
          simp only [List.length_append] at this
          omega
        exact htne (List.eq_nil_of_length_eq_zero this)
  rw [splitFirst_append_skip hb, splitFirst_self_append hsep x]
  simp

/-! ### The wire format

Each read operation serializes entities as delimited blocks
`XXX_START\n`, `KEY:value` lines, `XXX_END\n`.  The parsers split the raw
response on the start marker including its newline and look for the end
marker without a newline (`includes` / `indexOf`). -/

/-- Shape facts about a marker pair that every marker vocabulary of the
wire format satisfies: `w` is the start marker without its trailing
newline, `endM` the end marker; both are non-empty and newline-free, and
the start marker does not occur inside the end marker. -/
structure MarkerOk (w endM : JStr) : Prop where
  wNl : '\n' ∉ w
  eNl : '\n' ∉ endM
  wNe : w ≠ []
  eNe : endM ≠ []
  wInE : SubstrFree w endM

/-- The newline-terminated field lines of one block, concatenated. -/
def renderLines : List JStr → JStr
  | [] => []
  | l :: ls => l ++ '\n' :: renderLines ls

/-- A constituent of a raw response text: either a well-formed block
(start marker line, field lines, end marker line) or a dangling/malformed
fragment. -/
inductive Piece where
  | block (lines : List JStr)
  | frag (s : JStr)

deriving instance DecidableEq for Piece

def renderPiece (w endM : JStr) : Piece → JStr
  | Piece.block lines => (w ++ ['\n']) ++ (renderLines lines ++ (endM ++ ['\n']))
  | Piece.frag s => s

def renderPieces (w endM : JStr) : List Piece → JStr
  | [] => []
  | p :: rest => renderPiece w endM p ++ renderPieces w endM rest

/-- A string may serve as a field line of a block when it spans a single
line and does not contain either marker word. -/
def lineOkB (w endM : JStr) (l : JStr) : Bool :=
  !(decide ('\n' ∈ l)) && (splitFirst w l).isNone && (splitFirst endM l).isNone

/-- Well-formedness of a decomposition of a raw response into pieces:
block lines are marker-free single lines; a fragment contains no end
marker (that is exactly what makes it dangling/malformed) and is maximal,
i.e. not immediately followed by another fragment. -/
def goodB (w endM : JStr) : List Piece → Bool
  | [] => true
  | Piece.block lines :: rest => lines.all (lineOkB w endM) && goodB w endM rest
  | Piece.frag f :: rest =>
    (splitFirst endM f).isNone &&
      (match rest with
       | Piece.frag _ :: _ => false
       | _ => true) &&
      goodB w endM rest

theorem substrFree_iff_isNone {w s : JStr} (hw : w ≠ []) :
    (splitFirst w s).isNone = true ↔ SubstrFree w s := by
  rw [Option.isNone_iff_eq_none]
  exact splitFirst_eq_none_iff hw

theorem lineOk_props {w endM l : JStr} (hwne : w ≠ []) (hene : endM ≠ [])
    (h : lineOkB w endM l = true) :
    '\n' ∉ l ∧ SubstrFree w l ∧ SubstrFree endM l := by
  simp only [lineOkB, Bool.and_eq_true, Bool.not_eq_true', decide_eq_false_iff_not] at h
  obtain ⟨⟨h1, h2⟩, h3⟩ := h
  exact ⟨h1, (substrFree_iff_isNone hwne).mp h2, (substrFree_iff_isNone hene).mp h3⟩

theorem substrFree_of_suffix {w s t : JStr} (h : SubstrFree w s) (hts : t <:+ s) :
    SubstrFree w t :=
  fun u hu => h u (hu.trans hts)

theorem substrFree_of_prefix {w s t : JStr} (h : SubstrFree w s) (hts : t <+: s) :
    SubstrFree w t := by
  obtain ⟨d, hd⟩ := hts
  intro u hu hw
  obtain ⟨a, ha⟩ := hu
  refine h (u ++ d) ⟨a, ?_⟩ ?_
  · rw [← List.append_assoc, ha, hd]
  · obtain ⟨z, hz⟩ := hw
    exact ⟨z ++ d, by rw [← List.append_assoc, hz]⟩

theorem chunk_skip_sep {w l : JStr} (hw : '\n' ∉ w) (hfree : SubstrFree w l) (r : JStr) :
    splitFirst (w ++ ['\n']) ((l ++ ['\n']) ++ r)
      = (splitFirst (w ++ ['\n']) r).map (fun pq => ((l ++ ['\n']) ++ pq.1, pq.2)) :=
  splitFirst_append_skip (fun t ht hts hpre =>
    chunk_no_hit hw hfree t r ht hts (List.IsPrefix.trans ⟨['\n'], rfl⟩ hpre))

theorem chunk_skip_endM {endM l : JStr} (he : '\n' ∉ endM) (hfree : SubstrFree endM l)
    (r : JStr) :
    splitFirst endM ((l ++ ['\n']) ++ r)
      = (splitFirst endM r).map (fun pq => ((l ++ ['\n']) ++ pq.1, pq.2)) :=
  splitFirst_append_skip (fun t ht hts hpre => chunk_no_hit he hfree t r ht hts hpre)

/-- The start marker cannot occur anywhere in a rendered block body, so
the next split point lies beyond it. -/
theorem splitFirst_sep_body {w endM : JStr} (hm : MarkerOk w endM) :
    ∀ (lines : List JStr), (∀ l ∈ lines, lineOkB w endM l = true) → ∀ r,
      splitFirst (w ++ ['\n']) ((renderLines lines ++ (endM ++ ['\n'])) ++ r)
        = (splitFirst (w ++ ['\n']) r).map
            (fun pq => ((renderLines lines ++ (endM ++ ['\n'])) ++ pq.1, pq.2)) := by
  intro lines
  induction lines with
  | nil =>
    intro _ r
    simp only [renderLines, List.nil_append]
    exact chunk_skip_sep hm.wNl hm.wInE r
  | cons l ls ih =>
    intro hl r
    have hprops := lineOk_props hm.wNe hm.eNe (hl l (by simp))
    have hshape : (renderLines (l :: ls) ++ (endM ++ ['\n'])) ++ r
        = (l ++ ['\n']) ++ ((renderLines ls ++ (endM ++ ['\n'])) ++ r) := by
      simp [renderLines, List.append_assoc]
    rw [hshape, chunk_skip_sep hm.wNl hprops.2.1 _, ih (fun x hx => hl x (by simp [hx])) r]
    cases splitFirst (w ++ ['\n']) r with
    | none => rfl
    | some pq => simp [renderLines, List.append_assoc]

/-- The first occurrence of the end marker in a rendered block body is the
block's own end marker, whatever follows. -/
theorem splitFirst_endM_body {w endM : JStr} (hm : MarkerOk w endM) :
    ∀ (lines : List JStr), (∀ l ∈ lines, lineOkB w endM l = true) → ∀ r,
      splitFirst endM (renderLines lines ++ (endM ++ r)) = some (renderLines lines, r) := by
  intro lines
  induction lines with
  | nil =>
    intro _ r
    simp only [renderLines, List.nil_append]
    exact splitFirst_self_append hm.eNe r
  | cons l ls ih =>
    intro hl r
    have hprops := lineOk_props hm.wNe hm.eNe (hl l (by simp))
    have hshape : renderLines (l :: ls) ++ (endM ++ r)
        = (l ++ ['\n']) ++ (renderLines ls ++ (endM ++ r)) := by
      simp [renderLines, List.append_assoc]
    rw [hshape, chunk_skip_endM hm.eNl hprops.2.2 _, ih (fun x hx => hl x (by simp [hx])) r]
    simp [renderLines, List.append_assoc]

theorem splitFirst_single_notMem {c : Char} {l x : JStr} (hc : c ∉ l) :
    splitFirst [c] (l ++ c :: x) = some (l, x) := by
  induction l with
  | nil =>
    rw [List.nil_append, splitFirst]
    have hpre : [c].isPrefixOf (c :: x) = true := by
      rw [prefixOf_true_iff]
      exact ⟨x, rfl⟩
    rw [if_pos hpre]
    rfl
  | cons d l' ih =>
    have hcd : c ≠ d := fun h => hc (h ▸ List.mem_cons_self d _)
    have hcl : c ∉ l' := fun h => hc (List.mem_cons_of_mem d h)
    have hstep : (d :: l') ++ c :: x = d :: (l' ++ c :: x) := rfl
    rw [hstep, splitFirst]
    have hpre : ¬ [c].isPrefixOf (d :: (l' ++ c :: x)) = true := by
      intro hp
      obtain ⟨t, ht⟩ := prefixOf_true_iff.mp hp
      exact hcd (by injection ht)
    rw [if_neg hpre, ih hcl]
    rfl

theorem splitFirst_single_none {c : Char} {l : JStr} (hc : c ∉ l) :
    splitFirst [c] l = none := by
  rw [splitFirst_eq_none_iff (by simp)]
  intro t ht hw
  obtain ⟨z, hz⟩ := hw
  apply hc
  apply ht.sublist.subset
  rw [← hz]
  simp

/-- Splitting a rendered block body on newlines recovers the field lines,
plus the empty string left after the final newline. -/
theorem jsplit_nl_renderLines :
    ∀ {lines : List JStr}, (∀ l ∈ lines, '\n' ∉ l) →
      jsplit ['\n'] (renderLines lines) = lines ++ [[]] := by
  intro lines
  induction lines with
  | nil =>
    intro _
    rw [renderLines, jsplit_of_none (by rw [splitFirst])]
    rfl
  | cons l ls ih =>
    intro h
    rw [renderLines,
      jsplit_of_some (by simp) (splitFirst_single_notMem (h l (by simp))),
      ih (fun x hx => h x (by simp [hx]))]
    rfl

/-! ### The generic block parser

All four response parsers of the service module share this exact shape:
split the output on the start marker and drop empty segments
(`output.split('XXX_START\n').filter(Boolean)`); skip a segment without
the end marker (`if (!block.includes('XXX_END')) continue`); keep the
part strictly before the first end marker
(`block.substring(0, block.indexOf('XXX_END'))`); split it into non-empty
lines (`content.split('\n').filter(Boolean)`); and hand them to the
per-entity line folder plus required-field check `mk`. -/

def procSeg {α : Type} (endM : JStr) (mk : List JStr → Option α) (seg : JStr) : Option α :=
  match splitFirst endM seg with
  | none => none
  | some cq => mk ((jsplit ['\n'] cq.1).filter (fun l => !l.isEmpty))

def parseBlocksGen {α : Type} (w endM : JStr) (mk : List JStr → Option α) (out : JStr) :
    List α :=
  ((jsplit (w ++ ['\n']) out).filter (fun b => !b.isEmpty)).filterMap (procSeg endM mk)

/-- The records a decomposition into pieces should produce: one candidate
record per well-formed block, kept exactly when the entity's required
fields are present; fragments produce nothing. -/
def expectedRecords {α : Type} (mk : List JStr → Option α) : List Piece → List α :=
  List.filterMap fun p =>
    match p with
    | Piece.block lines => mk (lines.filter (fun l => !l.isEmpty))
    | Piece.frag _ => none

theorem procSeg_eq_none {α : Type} {endM seg : JStr} (mk : List JStr → Option α)
    (h : splitFirst endM seg = none) : procSeg endM mk seg = none := by
  unfold procSeg
  rw [h]

theorem procSeg_eq_some {α : Type} {endM seg c q : JStr} (mk : List JStr → Option α)
    (h : splitFirst endM seg = some (c, q)) :
    procSeg endM mk seg = mk ((jsplit ['\n'] c).filter (fun l => !l.isEmpty)) := by
  unfold procSeg
  rw [h]

theorem procSeg_nil {α : Type} {endM : JStr} (mk : List JStr → Option α) :
    procSeg endM mk [] = none :=
  procSeg_eq_none mk (by rw [splitFirst])

theorem procSeg_none_of_free {α : Type} {endM f : JStr} (mk : List JStr → Option α)
    (he : endM ≠ []) (h : SubstrFree endM f) : procSeg endM mk f = none :=
  procSeg_eq_none mk ((splitFirst_eq_none_iff he).mpr h)

theorem procSeg_block {w endM : JStr} (hm : MarkerOk w endM) {α : Type}
    (mk : List JStr → Option α) {lines : List JStr}
    (hl : ∀ l ∈ lines, lineOkB w endM l = true) (s : JStr) :
    procSeg endM mk ((renderLines lines ++ (endM ++ ['\n'])) ++ s)
      = mk (lines.filter (fun l => !l.isEmpty)) := by
  have hshape : (renderLines lines ++ (endM ++ ['\n'])) ++ s
      = renderLines lines ++ (endM ++ ('\n' :: s)) := by
    simp [List.append_assoc]
  rw [hshape, procSeg_eq_some mk (splitFirst_endM_body hm lines hl ('\n' :: s)),
    jsplit_nl_renderLines (fun l hx => (lineOk_props hm.wNe hm.eNe (hl l hx)).1),
    List.filter_append,
    show List.filter (fun l => !l.isEmpty) [([] : JStr)] = [] from rfl,
    List.append_nil]

theorem filterMap_filter_cons_none {α : Type} {endM : JStr} {mk : List JStr → Option α}
    {p : JStr} {t : List JStr} (h : procSeg endM mk p = none) :
    ((p :: t).filter (fun b => !b.isEmpty)).filterMap (procSeg endM mk)
      = (t.filter (fun b => !b.isEmpty)).filterMap (procSeg endM mk) := by
  rw [List.filter_cons]
  split
  · simp [List.filterMap_cons, h]
  · rfl

/-- Master lemma: splitting a well-formed raw response on the start
marker yields a head segment with no end marker, and processing the
segments produces exactly the per-block records. -/
theorem jsplit_renderPieces {w endM : JStr} (hm : MarkerOk w endM) {α : Type}
    (mk : List JStr → Option α) :
    ∀ (n : Nat) (ps : List Piece),
      (renderPieces w endM ps).length + ps.length ≤ n → goodB w endM ps = true →
      ∃ p tail, jsplit (w ++ ['\n']) (renderPieces w endM ps) = p :: tail ∧
        procSeg endM mk p = none ∧
        ((p :: tail).filter (fun b => !b.isEmpty)).filterMap (procSeg endM mk)
          = expectedRecords mk ps := by
  have hsep : (w ++ ['\n']) ≠ [] := by simp
  intro n
  induction n with
  | zero =>
    intro ps hlen _
    have hps : ps = [] := by
      cases ps with
      | nil => rfl
      | cons p rest => simp at hlen
    subst hps
    refine ⟨[], [], ?_, procSeg_nil mk, rfl⟩
    rw [renderPieces, jsplit_of_none (by rw [splitFirst])]
  | succ n ih =>
    intro ps hlen hg
    cases ps with
    | nil =>
      refine ⟨[], [], ?_, procSeg_nil mk, rfl⟩
      rw [renderPieces, jsplit_of_none (by rw [splitFirst])]
    | cons p rest =>
      cases p with
      | block lines =>
        simp only [goodB, Bool.and_eq_true] at hg
        obtain ⟨hlines, hgrest⟩ := hg
        have hlines' : ∀ l ∈ lines, lineOkB w endM l = true := by
          rw [List.all_eq_true] at hlines
          exact fun l hl => hlines l hl
        have hrender : renderPieces w endM (Piece.block lines :: rest)
            = (w ++ ['\n']) ++ ((renderLines lines ++ (endM ++ ['\n']))
                ++ renderPieces w endM rest) := by
          rw [renderPieces, renderPiece, List.append_assoc, List.append_assoc]
        have hmeas : (renderPieces w endM rest).length + rest.length ≤ n := by
          rw [hrender] at hlen
          simp only [List.length_append, List.length_cons] at hlen ⊢
          omega
        obtain ⟨p', tail', hsp', hnone', hexp'⟩ := ih rest hmeas hgrest
        have h1 : splitFirst (w ++ ['\n'])
              (renderPieces w endM (Piece.block lines :: rest))
            = some ([], (renderLines lines ++ (endM ++ ['\n']))
                ++ renderPieces w endM rest) := by
          rw [hrender]
          exact splitFirst_self_append hsep _
        have h2 := splitFirst_sep_body hm lines hlines' (renderPieces w endM rest)
        have h3 : jsplit (w ++ ['\n'])
              ((renderLines lines ++ (endM ++ ['\n'])) ++ renderPieces w endM rest)
            = ((renderLines lines ++ (endM ++ ['\n'])) ++ p') :: tail' := by
          rcases hsr : splitFirst (w ++ ['\n']) (renderPieces w endM rest) with _ | ⟨a, b⟩
          · rw [hsr, Option.map_none'] at h2
            rw [jsplit_of_none hsr, List.cons.injEq] at hsp'
            obtain ⟨hpR, htail⟩ := hsp'
            rw [jsplit_of_none h2, ← hpR, ← htail]
          · rw [hsr, Option.map_some'] at h2
            rw [jsplit_of_some hsep hsr, List.cons.injEq] at hsp'
            obtain ⟨hpa, htail⟩ := hsp'
            rw [jsplit_of_some hsep h2, ← hpa, htail]
        refine ⟨[], ((renderLines lines ++ (endM ++ ['\n'])) ++ p') :: tail', ?_,
          procSeg_nil mk, ?_⟩
        · rw [jsplit_of_some hsep h1, h3]
        · have hfilter : ((([] : JStr) :: ((renderLines lines ++ (endM ++ ['\n'])) ++ p')
                :: tail').filter (fun b => !b.isEmpty))
              = ((renderLines lines ++ (endM ++ ['\n'])) ++ p')
                :: tail'.filter (fun b => !b.isEmpty) := by
            rw [List.filter_cons_of_neg (by simp),
              List.filter_cons_of_pos (by simp [List.append_eq_nil])]
          rw [hfilter, List.filterMap_cons, procSeg_block hm mk hlines' p',
            (filterMap_filter_cons_none hnone').symm.trans hexp']
          rcases hmk : mk (lines.filter (fun l => !l.isEmpty)) with _ | r
          · simp only [expectedRecords, List.filterMap_cons, hmk]
          · simp only [expectedRecords, List.filterMap_cons, hmk]
      | frag f =>
        simp only [goodB, Bool.and_eq_true] at hg
        obtain ⟨⟨hfN, hshape⟩, hgrest⟩ := hg
        have hfree : SubstrFree endM f := (substrFree_iff_isNone hm.eNe).mp hfN
        rcases hsf : splitFirst (w ++ ['\n']) f with _ | ⟨f0, f'⟩
        · cases rest with
          | nil =>
            have hrender : renderPieces w endM [Piece.frag f] = f := by
              rw [renderPieces, renderPieces, renderPiece, List.append_nil]
            refine ⟨f, [], ?_, procSeg_none_of_free mk hm.eNe hfree, ?_⟩
            · rw [hrender, jsplit_of_none hsf]
            · rw [filterMap_filter_cons_none (procSeg_none_of_free mk hm.eNe hfree)]
              rfl
          | cons q rest' =>
            cases q with
            | frag g => simp at hshape
            | block lines' =>
              have hrenderR : renderPieces w endM (Piece.block lines' :: rest')
                  = (w ++ ['\n']) ++ ((renderLines lines' ++ (endM ++ ['\n']))
                      ++ renderPieces w endM rest') := by
                rw [renderPieces, renderPiece, List.append_assoc, List.append_assoc]
              have hrender : renderPieces w endM
                    (Piece.frag f :: Piece.block lines' :: rest')
                  = f ++ ((w ++ ['\n']) ++ ((renderLines lines' ++ (endM ++ ['\n']))
                      ++ renderPieces w endM rest')) := by
                rw [renderPieces, renderPiece, hrenderR]
              have hnb : ∀ t, t <+: (w ++ ['\n']) → t <:+ (w ++ ['\n']) →
                  t = [] ∨ t = w ++ ['\n'] :=
                fun t hp hs => snoc_nl_no_border hm.wNl hp hs
              have h1 := splitFirst_frag_marker (x := (renderLines lines'
                  ++ (endM ++ ['\n'])) ++ renderPieces w endM rest') hsep hnb hsf
              have hmeas : (renderPieces w endM (Piece.block lines' :: rest')).length
                  + (Piece.block lines' :: rest').length ≤ n := by
                simp only [renderPieces, renderPiece, List.length_append,
                  List.length_cons] at hlen ⊢
                omega
              obtain ⟨p', tail', hsp', hnone', hexp'⟩ :=
                ih (Piece.block lines' :: rest') hmeas hgrest
              have hsplitR : splitFirst (w ++ ['\n'])
                    (renderPieces w endM (Piece.block lines' :: rest'))
                  = some ([], (renderLines lines' ++ (endM ++ ['\n']))
                      ++ renderPieces w endM rest') := by
                rw [hrenderR]
                exact splitFirst_self_append hsep _
              rw [jsplit_of_some hsep hsplitR, List.cons.injEq] at hsp'
              obtain ⟨hp0, htail⟩ := hsp'
              refine ⟨f, tail', ?_, procSeg_none_of_free mk hm.eNe hfree, ?_⟩
              · rw [hrender, jsplit_of_some hsep h1, htail]
              · rw [filterMap_filter_cons_none (procSeg_none_of_free mk hm.eNe hfree)]
                rw [← hp0] at hexp'
                rw [List.filter_cons_of_neg (by simp)] at hexp'
                exact hexp'
        · have hff : f = f0 ++ (w ++ ['\n']) ++ f' := splitFirst_eq_append hsf
          have hfree0 : SubstrFree endM f0 :=
            substrFree_of_prefix hfree ⟨(w ++ ['\n']) ++ f', by
              simp [hff, List.append_assoc]⟩
          have hfree' : SubstrFree endM f' :=
            substrFree_of_suffix hfree ⟨f0 ++ (w ++ ['\n']), by
              simp [hff, List.append_assoc]⟩
          have hgood' : goodB w endM (Piece.frag f' :: rest) = true := by
            simp only [goodB, Bool.and_eq_true]
            exact ⟨⟨(substrFree_iff_isNone hm.eNe).mpr hfree', hshape⟩, hgrest⟩
          have hflen : f.length = f0.length + (w.length + 1) + f'.length := by
            rw [hff]
            simp only [List.length_append, List.length_cons, List.length_nil]
          have hmeas : (renderPieces w endM (Piece.frag f' :: rest)).length
              + (Piece.frag f' :: rest).length ≤ n := by
            simp only [renderPieces, renderPiece, List.length_append,
              List.length_cons] at hlen ⊢
            omega
          obtain ⟨p'', tail'', hsp'', hnone'', hexp''⟩ :=
            ih (Piece.frag f' :: rest) hmeas hgood'
          have hrender' : renderPieces w endM (Piece.frag f' :: rest)
              = f' ++ renderPieces w endM rest := by
            rw [renderPieces, renderPiece]
          rw [hrender'] at hsp''
          have h1 : splitFirst (w ++ ['\n']) (f ++ renderPieces w endM rest)
              = some (f0, f' ++ renderPieces w endM rest) :=
            splitFirst_append_right hsf _
          refine ⟨f0, p'' :: tail'', ?_, procSeg_none_of_free mk hm.eNe hfree0, ?_⟩
          · have hrender : renderPieces w endM (Piece.frag f :: rest)
                = f ++ renderPieces w endM rest := by
              rw [renderPieces, renderPiece]
            rw [hrender, jsplit_of_some hsep h1, hsp'']
          · rw [filterMap_filter_cons_none (procSeg_none_of_free mk hm.eNe hfree0), hexp'']
            rfl

/-- The parse of a well-formed raw response is exactly the per-block
record list. -/
theorem parseBlocksGen_renderPieces {w endM : JStr} (hm : MarkerOk w endM) {α : Type}
    (mk : List JStr → Option α) (ps : List Piece) (hg : goodB w endM ps = true) :
    parseBlocksGen w endM mk (renderPieces w endM ps) = expectedRecords mk ps := by
  obtain ⟨p, tail, h1, _, h3⟩ :=
    jsplit_renderPieces hm mk ((renderPieces w endM ps).length + ps.length) ps le_rfl hg
  rw [parseBlocksGen, h1]
  exact h3

/-! ### Entity records

Transcribed from the type declarations.  The parsers build the records
incrementally (TypeScript `Partial<...>`), so every parser-assigned field
is an `Option`; `none` is an unset (undefined) field. -/

structure EmailMessage where
  id : Option JStr := none
  subject : Option JStr := none
  sender : Option JStr := none
  recipients : Option (List JStr) := none
  date : Option JStr := none
  read : Option Bool := none
  flagged : Option Bool := none
  mailbox : Option JStr := none
  account : Option JStr := none
  attachmentCount : Option Int := none
  hasAttachments : Option Bool := none
  content : Option JStr := none

deriving instance DecidableEq for EmailMessage

structure Mailbox where
  name : Option JStr := none
  account : Option JStr := none
  unreadCount : Option Int := none
  totalCount : Option Int := none

deriving instance DecidableEq for Mailbox

structure EmailAccount where
  name : Option JStr := none
  email : JStr := []
  type : Option JStr := none

deriving instance DecidableEq for EmailAccount

structure EmailAttachment where
  name : Option JStr := none

deriving instance DecidableEq for EmailAttachment

structure DraftEmail where
  subject : JStr
  «to» : List JStr
  cc : Option (List JStr) := none
  bcc : Option (List JStr) := none
  content : JStr
  account : Option JStr := none

structure SendEmailResult where
  success : Bool
  messageId : Option JStr := none
  error : Option JStr := none

deriving instance DecidableEq for SendEmailResult

/-! ### Field-line parsing -/

/-- One `KEY:value` line:
`const [key, ...valueParts] = line.split(':');`
`const value = valueParts.join(':').trim();`
(`jsplit` never returns `[]`, so the first arm is dead code kept only for
totality). -/
def parseLineKV (line : JStr) : JStr × JStr :=
  match jsplit (toL ":") line with
  | [] => (line, [])
  | key :: rest => (key, jtrim (joinSep (toL ":") rest))

def digitsToNat (ds : JStr) : Nat :=
  ds.foldl (fun acc c => acc * 10 + (c.toNat - '0'.toNat)) 0

def parseDigits (s : JStr) : Option Nat :=
  if (s.takeWhile Char.isDigit).isEmpty then none
  else some (digitsToNat (s.takeWhile Char.isDigit))

/-- JavaScript `parseInt(value)` on the already-trimmed field values of
this protocol: an optional sign followed by the longest decimal digit
prefix; `none` models `NaN`.  (`parseInt`'s leading-whitespace skipping
and hexadecimal `0x` prefix are never exercised here: values reaching it
are trimmed decimal counts.) -/
def parseIntJS : JStr → Option Int
  | '-' :: rest => (parseDigits rest).map (fun n => -(n : Int))
  | '+' :: rest => (parseDigits rest).map (fun n => (n : Int))
  | s => (parseDigits s).map (fun n => (n : Int))

/-- `parseInt(value) > 0`, where `NaN > 0` is `false`. -/
def parseIntPos (s : JStr) : Bool :=
  match parseIntJS s with
  | some n => decide (0 < n)
  | none => false

/-- The `switch (key)` body of `parseEmailMessages`: one field assignment
per recognized key, unrecognized keys ignored. -/
def applyMessageKV (m : EmailMessage) (key value : JStr) : EmailMessage :=
  if key = toL "ID" then { m with id := some value }
  else if key = toL "SUBJECT" then { m with subject := some value }
  else if key = toL "SENDER" then { m with sender := some value }
  else if key = toL "RECIPIENTS" then
    { m with recipients := some ((jsplit (toL ",") value).filter (fun s => !s.isEmpty)) }
  else if key = toL "DATE" then { m with date := some value }
  else if key = toL "READ" then { m with read := some (decide (value = toL "true")) }
  else if key = toL "FLAGGED" then { m with flagged := some (decide (value = toL "true")) }
  else if key = toL "MAILBOX" then { m with mailbox := some value }
  else if key = toL "ACCOUNT" then { m with account := some value }
  else if key = toL "ATTACHMENT_COUNT" then
    { m with attachmentCount := parseIntJS value, hasAttachments := some (parseIntPos value) }
  else if key = toL "CONTENT" then { m with content := some value }
  else m

/-- Destructure one line of a message block and dispatch on its key. -/
def applyMessageLine (m : EmailMessage) (line : JStr) : EmailMessage :=
  applyMessageKV m (parseLineKV line).1 (parseLineKV line).2

/-- The `switch (key)` body of `parseMailboxes`. -/
def applyMailboxKV (mb : Mailbox) (key value : JStr) : Mailbox :=
  if key = toL "NAME" then { mb with name := some value }
  else if key = toL "ACCOUNT" then { mb with account := some value }
  else if key = toL "UNREAD" then { mb with unreadCount := parseIntJS value }
  else if key = toL "TOTAL" then { mb with totalCount := parseIntJS value }
  else mb

/-- Destructure one line of a mailbox block and dispatch on its key. -/
def applyMailboxLine (mb : Mailbox) (line : JStr) : Mailbox :=
  applyMailboxKV mb (parseLineKV line).1 (parseLineKV line).2

/-- The `switch (key)` body of `parseAccounts` (the record starts as
`{ email: '' }`). -/
def applyAccountKV (a : EmailAccount) (key value : JStr) : EmailAccount :=
  if key = toL "NAME" then { a with name := some value }
  else if key = toL "TYPE" then { a with type := some value }
  else a

/-- Destructure one line of an account block and dispatch on its key. -/
def applyAccountLine (a : EmailAccount) (line : JStr) : EmailAccount :=
  applyAccountKV a (parseLineKV line).1 (parseLineKV line).2

/-- The key dispatch of `parseAttachments` (only `NAME` is recognized). -/
def applyAttachmentKV (a : EmailAttachment) (key value : JStr) : EmailAttachment :=
  if key = toL "NAME" then { a with name := some value }
  else a

/-- Destructure one line of an attachment block and dispatch on its key. -/
def applyAttachmentLine (a : EmailAttachment) (line : JStr) : EmailAttachment :=
  applyAttachmentKV a (parseLineKV line).1 (parseLineKV line).2

/-- Fold the lines of one message block and keep the record only when
`message.id && message.subject` is truthy. -/
def mkMessage (lines : List JStr) : Option EmailMessage :=
  let m := lines.foldl applyMessageLine {}
  if truthy m.id && truthy m.subject then some m else none

/-- Fold the lines of one mailbox block and keep the record only when
`mailbox.name` is truthy and `mailbox.account !== undefined` (the account
key was observed, whatever its value). -/
def mkMailbox (lines : List JStr) : Option Mailbox :=
  let mb := lines.foldl applyMailboxLine {}
  if truthy mb.name && mb.account.isSome then some mb else none

/-- Fold the lines of one account block and keep the record only when
`account.name && account.type` is truthy. -/
def mkAccount (lines : List JStr) : Option EmailAccount :=
  let a := lines.foldl applyAccountLine {}
  if truthy a.name && truthy a.type then some a else none

/-- Fold the lines of one attachment block and keep the record only when
`attachment.name` is truthy. -/
def mkAttachment (lines : List JStr) : Option EmailAttachment :=
  let a := lines.foldl applyAttachmentLine {}
  if truthy a.name then some a else none

/-! ### The four parsers -/

def parseEmailMessages (out : JStr) : List EmailMessage :=
  parseBlocksGen (toL "MESSAGE_START") (toL "MESSAGE_END") mkMessage out

def parseMailboxes (out : JStr) : List Mailbox :=
  parseBlocksGen (toL "MAILBOX_START") (toL "MAILBOX_END") mkMailbox out

def parseAccounts (out : JStr) : List EmailAccount :=
  parseBlocksGen (toL "ACCOUNT_START") (toL "ACCOUNT_END") mkAccount out

def parseAttachments (out : JStr) : List EmailAttachment :=
  parseBlocksGen (toL "ATTACHMENT_START") (toL "ATTACHMENT_END") mkAttachment out

theorem markerOk_message : MarkerOk (toL "MESSAGE_START") (toL "MESSAGE_END") :=
  ⟨by decide, by decide, by decide, by decide,
    (substrFree_iff_isNone (by decide)).mp (by decide)⟩

theorem markerOk_mailbox : MarkerOk (toL "MAILBOX_START") (toL "MAILBOX_END") :=
  ⟨by decide, by decide, by decide, by decide,
    (substrFree_iff_isNone (by decide)).mp (by decide)⟩

theorem markerOk_account : MarkerOk (toL "ACCOUNT_START") (toL "ACCOUNT_END") :=
  ⟨by decide, by decide, by decide, by decide,
    (substrFree_iff_isNone (by decide)).mp (by decide)⟩

theorem markerOk_attachment : MarkerOk (toL "ATTACHMENT_START") (toL "ATTACHMENT_END") :=
  ⟨by decide, by decide, by decide, by decide,
    (substrFree_iff_isNone (by decide)).mp (by decide)⟩

/-! ### The operation facade

Each operation awaits `executeAppleScriptFile(script)`.  That call either
resolves with the subprocess's trimmed stdout or rejects with an error
message (spawn failure, or non-zero exit with the captured stderr).  The
models below take that outcome as an explicit `Except` argument; an
uncaught rejection propagates as `Except.error`. -/

/-- The tail of `getEmailById` after the subprocess call: the exact
`NOT_FOUND` sentinel maps to `null`, anything else is parsed and
`emails[0] || null` is returned.  The identifier and the mailbox/account
hints only shape the generated script, not this post-processing. -/
def getEmailById (messageId : JStr) (mailbox account : Option JStr)
    (execResult : Except JStr JStr) : Except JStr (Option EmailMessage) :=
  match messageId, mailbox, account, execResult with
  | _, _, _, Except.error e => Except.error e
  | _, _, _, Except.ok result =>
    if result = toL "NOT_FOUND" then Except.ok none
    else Except.ok (parseEmailMessages result).head?

/-- `sendEmail` wraps the whole script construction and invocation in
`try/catch`: a resolved call yields `{success:true, messageId}`, a
rejection is caught and yields `{success:false, error}` with the
rejection's message. -/
def sendEmail (draft : DraftEmail) (execResult : Except JStr JStr) : SendEmailResult :=
  match draft, execResult with
  | _, Except.ok messageId => { success := true, messageId := some messageId }
  | _, Except.error e => { success := false, error := some e }

/-- `moveEmail` wraps only the invocation in `try/catch` and collapses any
rejection to `false`; a resolved call returns `true`. -/
def moveEmail (messageId targetMailbox : JStr) (targetAccount : Option JStr)
    (execResult : Except JStr JStr) : Bool :=
  match messageId, targetMailbox, targetAccount, execResult with
  | _, _, _, Except.ok _ => true
  | _, _, _, Except.error _ => false

/-- `setReadStatus` wraps only the invocation in `try/catch` and collapses
any rejection to `false`; a resolved call returns `true`. -/
def setReadStatus (messageId : JStr) (read : Bool) (execResult : Except JStr JStr) : Bool :=
  match messageId, read, execResult with
  | _, _, Except.ok _ => true
  | _, _, Except.error _ => false

/-! ### The search script's source-collection selection

`searchEmails` destructures its optional `mailbox` and `account`
parameters and picks the collection to iterate with an
`if (mailbox && account) ... else if (mailbox) ... else if (account)
... else ...` chain; JavaScript truthiness makes an absent parameter and
an empty string equivalent here. -/

/-- JavaScript truthiness of an optional string parameter. -/
def jsTruthy : Option String → Bool
  | some s => !s.isEmpty
  | none => false

/-- Reading an optional parameter where the chain has already established
truthiness (so the default is never observable). -/
def orEmpty : Option String → String
  | some s => s
  | none => ""

/-- The collection-selection lines of the search script, transcribed from
the template-string concatenation in `searchEmails`. -/
def searchCollectionClause (mailbox account : Option String) : String :=
  if jsTruthy mailbox && jsTruthy account then
    "set targetMailbox to mailbox \"" ++ orEmpty mailbox ++ "\" of account \""
      ++ orEmpty account ++ "\"\n"
      ++ "set allMessages to every message of targetMailbox\n"
  else if jsTruthy mailbox then
    "set targetMailbox to mailbox \"" ++ orEmpty mailbox ++ "\"\n"
      ++ "set allMessages to every message of targetMailbox\n"
  else if jsTruthy account then
    "set allMessages to every message of account \"" ++ orEmpty account ++ "\"\n"
  else
    "set targetMailbox to inbox\n"
      ++ "set allMessages to every message of targetMailbox\n"

/-- The four source collections the specification names. -/
inductive SearchSource where
  | mailboxOfAccount (mb acct : String)
  | mailboxOnly (mb : String)
  | accountAll (acct : String)
  | defaultInbox

deriving instance DecidableEq for SearchSource

/-- Written from the specification's precedence sentence:
mailbox+account, then mailbox only, then account only, then the default
inbox collection.  A parameter counts as given when it is supplied as a
non-empty string. -/
def specSearchSource (mailbox account : Option String) : SearchSource :=
  if jsTruthy mailbox && jsTruthy account then
    SearchSource.mailboxOfAccount (orEmpty mailbox) (orEmpty account)
  else if jsTruthy mailbox then SearchSource.mailboxOnly (orEmpty mailbox)
  else if jsTruthy account then SearchSource.accountAll (orEmpty account)
  else SearchSource.defaultInbox

/-- The script text each source collection selects. -/
def renderSearchSource : SearchSource → String
  | SearchSource.mailboxOfAccount mb acct =>
    "set targetMailbox to mailbox \"" ++ mb ++ "\" of account \"" ++ acct ++ "\"\n"
      ++ "set allMessages to every message of targetMailbox\n"
  | SearchSource.mailboxOnly mb =>
    "set targetMailbox to mailbox \"" ++ mb ++ "\"\n"
      ++ "set allMessages to every message of targetMailbox\n"
  | SearchSource.accountAll acct =>
    "set allMessages to every message of account \"" ++ acct ++ "\"\n"
  | SearchSource.defaultInbox =>
    "set targetMailbox to inbox\n"
      ++ "set allMessages to every message of targetMailbox\n"

/-! ### A store model for the set-read-status script -/

/-- Modelled from the spec: the external mail application's store, as far
as the set-read-status script observes it — messages with an identifier
and a read flag.  The mail application itself is outside this repository.
-/
def MailStore : Type := List (JStr × Bool)

/-- `set read status of theMessage to ...` applied to
`first message whose id is ...`: only the first matching message changes.
-/
def setFirstRead : MailStore → JStr → Bool → MailStore
  | [], _, _ => []
  | p :: rest, mid, rd =>
    if p.1 = mid then (p.1, rd) :: rest else p :: setFirstRead rest mid rd

/-- Modelled from the spec: executing the generated set-read-status script
against a store.  When a message with the identifier exists the script
sets its read flag and prints the `SUCCESS` sentinel; otherwise
`first message whose id is ...` raises and the subprocess exits non-zero,
which surfaces as a rejected promise. -/
def runSetReadScript (store : MailStore) (messageId : JStr) (read : Bool) :
    Except JStr (MailStore × JStr) :=
  if store.any (fun p => decide (p.1 = messageId)) then
    Except.ok (setFirstRead store messageId read, toL "SUCCESS")
  else
    Except.error (toL "AppleScript execution failed with code 1")

/-- One full `setReadStatus` invocation against a store: run the script,
feed the outcome to the facade's `try/catch`, and keep the store the
script produced. -/
def setReadStatusRun (store : MailStore) (messageId : JStr) (read : Bool) :
    Bool × MailStore :=
  match runSetReadScript store messageId read with
  | Except.ok out => (setReadStatus messageId read (Except.ok out.2), out.1)
  | Except.error e => (setReadStatus messageId read (Except.error e), store)

/-- The read flag of the first message with the given identifier. -/
def lookupRead (store : MailStore) (mid : JStr) : Option Bool :=
  (store.find? (fun p => decide (p.1 = mid))).map Prod.snd

/-! ### Supporting lemmas for the claims -/

theorem parseLineKV_split {k v : JStr} (hk : (':' : Char) ∉ k) :
    parseLineKV (k ++ ':' :: v) = (k, jtrim v) := by
  have hsf : splitFirst (toL ":") (k ++ ':' :: v) = some (k, v) :=
    splitFirst_single_notMem hk
  unfold parseLineKV
  rw [jsplit_of_some (by decide) hsf]
  show (k, jtrim (joinSep (toL ":") (jsplit (toL ":") v))) = (k, jtrim v)
  rw [joinSep_jsplit (by decide) v.length v le_rfl]

theorem mkMessage_some {lines : List JStr} {m : EmailMessage}
    (h : mkMessage lines = some m) :
    truthy m.id = true ∧ truthy m.subject = true := by
  simp only [mkMessage] at h
  split at h
  · rename_i hcond
    rw [Option.some.injEq] at h
    subst h
    rw [Bool.and_eq_true] at hcond
    exact hcond
  · exact absurd h (by simp)

theorem procSeg_some {α : Type} {endM seg : JStr} {mk : List JStr → Option α} {a : α}
    (h : procSeg endM mk seg = some a) : ∃ lines, mk lines = some a := by
  unfold procSeg at h
  split at h
  · exact absurd h (by simp)
  · exact ⟨_, h⟩

theorem parseEmailMessages_mem {out : JStr} {m : EmailMessage}
    (h : m ∈ parseEmailMessages out) :
    truthy m.id = true ∧ truthy m.subject = true := by
  unfold parseEmailMessages parseBlocksGen at h
  rw [List.mem_filterMap] at h
  obtain ⟨b, _, hb⟩ := h
  obtain ⟨lines, hl⟩ := procSeg_some hb
  exact mkMessage_some hl

theorem truthy_ne_some_nil {o : Option JStr} (h : truthy o = true) : o ≠ some [] := by
  intro he
  rw [he] at h
  exact absurd h (by decide)

set_option maxHeartbeats 1000000 in
theorem applyMessageKV_read_of_ne {m : EmailMessage} {key value : JStr}
    (hne : key ≠ toL "READ") :
    (applyMessageKV m key value).read = m.read := by
  unfold applyMessageKV
  split_ifs <;> rfl

theorem applyMessageLine_read_of_ne {m : EmailMessage} {line : JStr}
    (hne : (parseLineKV line).1 ≠ toL "READ") :
    (applyMessageLine m line).read = m.read := by
  unfold applyMessageLine
  exact applyMessageKV_read_of_ne hne

theorem applyMessageKV_read_eq {m : EmailMessage} {value : JStr} :
    (applyMessageKV m (toL "READ") value).read = some (decide (value = toL "true")) := by
  unfold applyMessageKV
  rw [if_neg (by decide), if_neg (by decide), if_neg (by decide), if_neg (by decide),
    if_neg (by decide), if_pos rfl]

theorem applyMessageLine_read_eq {m : EmailMessage} {line : JStr}
    (hk : (parseLineKV line).1 = toL "READ") :
    (applyMessageLine m line).read
      = some (decide ((parseLineKV line).2 = toL "true")) := by
  unfold applyMessageLine
  rw [hk, applyMessageKV_read_eq]

theorem foldl_read_of_ne :
    ∀ {suf : List JStr}, (∀ l ∈ suf, (parseLineKV l).1 ≠ toL "READ") →
      ∀ (m : EmailMessage), (List.foldl applyMessageLine m suf).read = m.read := by
  intro suf
  induction suf with
  | nil => intro _ m; rfl
  | cons l ls ih =>
    intro h m
    rw [List.foldl_cons, ih (fun x hx => h x (by simp [hx])),
      applyMessageLine_read_of_ne (h l (by simp))]

theorem applyMailboxKV_account {mb : Mailbox} {key value : JStr} :
    (applyMailboxKV mb key value).account
      = if key = toL "ACCOUNT" then some value else mb.account := by
  by_cases hA : key = toL "ACCOUNT"
  · rw [if_pos hA]
    subst hA
    unfold applyMailboxKV
    rw [if_neg (by decide), if_pos rfl]
  · rw [if_neg hA]
    unfold applyMailboxKV
    split_ifs <;> rfl

theorem applyMailboxLine_account {mb : Mailbox} {l : JStr} :
    (applyMailboxLine mb l).account
      = if (parseLineKV l).1 = toL "ACCOUNT" then some ((parseLineKV l).2)
        else mb.account := by
  unfold applyMailboxLine
  exact applyMailboxKV_account

theorem foldl_mailbox_account :
    ∀ (lines : List JStr) (mb : Mailbox),
      (lines.foldl applyMailboxLine mb).account.isSome
        = (mb.account.isSome
            || lines.any (fun l => decide ((parseLineKV l).1 = toL "ACCOUNT"))) := by
  intro lines
  induction lines with
  | nil => intro mb; simp
  | cons l ls ih =>
    intro mb
    rw [List.foldl_cons, ih, List.any_cons]
    by_cases hA : (parseLineKV l).1 = toL "ACCOUNT"
    · simp [applyMailboxLine_account, hA]
    · simp [applyMailboxLine_account, hA]

theorem setFirstRead_lookup :
    ∀ (store : MailStore) (mid : JStr) (rd : Bool),
      store.any (fun p => decide (p.1 = mid)) = true →
      lookupRead (setFirstRead store mid rd) mid = some rd := by
  intro store mid rd
  induction store with
  | nil => intro h; simp at h
  | cons p rest ih =>
    intro h
    simp only [setFirstRead]
    by_cases hp : p.1 = mid
    · rw [if_pos hp]
      simp [lookupRead, List.find?, hp]
    · rw [if_neg hp]
      have hrest : rest.any (fun q => decide (q.1 = mid)) = true := by
        rw [List.any_cons] at h
        simpa [hp] using h
      have := ih hrest
      simp only [lookupRead, List.find?] at this ⊢
      simpa [hp] using this

theorem setFirstRead_any :
    ∀ (store : MailStore) (mid : JStr) (rd : Bool),
      (setFirstRead store mid rd).any (fun p => decide (p.1 = mid))
        = store.any (fun p => decide (p.1 = mid)) := by
  intro store mid rd
  induction store with
  | nil => rfl
  | cons p rest ih =>
    simp only [setFirstRead]
    by_cases hp : p.1 = mid
    · rw [if_pos hp]
      simp [hp]
    · rw [if_neg hp]
      simp [hp, ih]

theorem setFirstRead_idem :
    ∀ (store : MailStore) (mid : JStr) (rd : Bool),
      setFirstRead (setFirstRead store mid rd) mid rd = setFirstRead store mid rd := by
  intro store mid rd
  induction store with
  | nil => rfl
  | cons p rest ih =>
    simp only [setFirstRead]
    by_cases hp : p.1 = mid
    · rw [if_pos hp]
      simp [setFirstRead, hp]
    · rw [if_neg hp]
      simp [setFirstRead, hp, ih]

/-! #### Last-occurrence-wins machinery

Each `switch (key)` dispatcher assigns a fixed set of record fields per
recognized key, distinct recognized keys touch disjoint fields, and an
unrecognized key assigns nothing.  Hence a repeated assignment through
the same key overwrites the earlier one, and assignments through
different keys commute; together these make any earlier occurrence of a
duplicated key irrelevant to the block's fold. -/

attribute [ext] EmailMessage Mailbox EmailAccount EmailAttachment

set_option maxHeartbeats 1000000

theorem applyMessageKV_id (m : EmailMessage) (k v : JStr) :
    (applyMessageKV m k v).id = if k = toL "ID" then some v else m.id := by
  unfold applyMessageKV
  simp only [apply_ite EmailMessage.id]
  split_ifs <;> first | rfl | (subst_vars; exact absurd ‹_ = _› (by decide))

theorem applyMessageKV_subject (m : EmailMessage) (k v : JStr) :
    (applyMessageKV m k v).subject = if k = toL "SUBJECT" then some v else m.subject := by
  unfold applyMessageKV
  simp only [apply_ite EmailMessage.subject]
  split_ifs <;> first | rfl | (subst_vars; exact absurd ‹_ = _› (by decide))

theorem applyMessageKV_sender (m : EmailMessage) (k v : JStr) :
    (applyMessageKV m k v).sender = if k = toL "SENDER" then some v else m.sender := by
  unfold applyMessageKV
  simp only [apply_ite EmailMessage.sender]
  split_ifs <;> first | rfl | (subst_vars; exact absurd ‹_ = _› (by decide))

theorem applyMessageKV_recipients (m : EmailMessage) (k v : JStr) :
    (applyMessageKV m k v).recipients
      = if k = toL "RECIPIENTS"
        then some ((jsplit (toL ",") v).filter (fun s => !s.isEmpty))
        else m.recipients := by
  unfold applyMessageKV
  simp only [apply_ite EmailMessage.recipients]
  split_ifs <;> first | rfl | (subst_vars; exact absurd ‹_ = _› (by decide))

theorem applyMessageKV_date (m : EmailMessage) (k v : JStr) :
    (applyMessageKV m k v).date = if k = toL "DATE" then some v else m.date := by
  unfold applyMessageKV
  simp only [apply_ite EmailMessage.date]
  split_ifs <;> first | rfl | (subst_vars; exact absurd ‹_ = _› (by decide))

theorem applyMessageKV_read (m : EmailMessage) (k v : JStr) :
    (applyMessageKV m k v).read
      = if k = toL "READ" then some (decide (v = toL "true")) else m.read := by
  unfold applyMessageKV
  simp only [apply_ite EmailMessage.read]
  split_ifs <;> first | rfl | (subst_vars; exact absurd ‹_ = _› (by decide))

theorem applyMessageKV_flagged (m : EmailMessage) (k v : JStr) :
    (applyMessageKV m k v).flagged
      = if k = toL "FLAGGED" then some (decide (v = toL "true")) else m.flagged := by
  unfold applyMessageKV
  simp only [apply_ite EmailMessage.flagged]
  split_ifs <;> first | rfl | (subst_vars; exact absurd ‹_ = _› (by decide))

theorem applyMessageKV_mailbox (m : EmailMessage) (k v : JStr) :
    (applyMessageKV m k v).mailbox = if k = toL "MAILBOX" then some v else m.mailbox := by
  unfold applyMessageKV
  simp only [apply_ite EmailMessage.mailbox]
  split_ifs <;> first | rfl | (subst_vars; exact absurd ‹_ = _› (by decide))

theorem applyMessageKV_account (m : EmailMessage) (k v : JStr) :
    (applyMessageKV m k v).account = if k = toL "ACCOUNT" then some v else m.account := by
  unfold applyMessageKV
  simp only [apply_ite EmailMessage.account]
  split_ifs <;> first | rfl | (subst_vars; exact absurd ‹_ = _› (by decide))

theorem applyMessageKV_attachmentCount (m : EmailMessage) (k v : JStr) :
    (applyMessageKV m k v).attachmentCount
      = if k = toL "ATTACHMENT_COUNT" then parseIntJS v else m.attachmentCount := by
  unfold applyMessageKV
  simp only [apply_ite EmailMessage.attachmentCount]
  split_ifs <;> first | rfl | (subst_vars; exact absurd ‹_ = _› (by decide))

theorem applyMessageKV_hasAttachments (m : EmailMessage) (k v : JStr) :
    (applyMessageKV m k v).hasAttachments
      = if k = toL "ATTACHMENT_COUNT" then some (parseIntPos v)
        else m.hasAttachments := by
  unfold applyMessageKV
  simp only [apply_ite EmailMessage.hasAttachments]
  split_ifs <;> first | rfl | (subst_vars; exact absurd ‹_ = _› (by decide))

theorem applyMessageKV_content (m : EmailMessage) (k v : JStr) :
    (applyMessageKV m k v).content = if k = toL "CONTENT" then some v else m.content := by
  unfold applyMessageKV
  simp only [apply_ite EmailMessage.content]
  split_ifs <;> first | rfl | (subst_vars; exact absurd ‹_ = _› (by decide))

theorem applyMailboxKV_name (mb : Mailbox) (k v : JStr) :
    (applyMailboxKV mb k v).name = if k = toL "NAME" then some v else mb.name := by
  unfold applyMailboxKV
  simp only [apply_ite Mailbox.name]
  split_ifs <;> first | rfl | (subst_vars; exact absurd ‹_ = _› (by decide))

theorem applyMailboxKV_unreadCount (mb : Mailbox) (k v : JStr) :
    (applyMailboxKV mb k v).unreadCount
      = if k = toL "UNREAD" then parseIntJS v else mb.unreadCount := by
  unfold applyMailboxKV
  simp only [apply_ite Mailbox.unreadCount]
  split_ifs <;> first | rfl | (subst_vars; exact absurd ‹_ = _› (by decide))

theorem applyMailboxKV_totalCount (mb : Mailbox) (k v : JStr) :
    (applyMailboxKV mb k v).totalCount
      = if k = toL "TOTAL" then parseIntJS v else mb.totalCount := by
  unfold applyMailboxKV
  simp only [apply_ite Mailbox.totalCount]
  split_ifs <;> first | rfl | (subst_vars; exact absurd ‹_ = _› (by decide))

theorem applyAccountKV_name (a : EmailAccount) (k v : JStr) :
    (applyAccountKV a k v).name = if k = toL "NAME" then some v else a.name := by
  unfold applyAccountKV
  simp only [apply_ite EmailAccount.name]
  split_ifs <;> first | rfl | (subst_vars; exact absurd ‹_ = _› (by decide))

theorem applyAccountKV_email (a : EmailAccount) (k v : JStr) :
    (applyAccountKV a k v).email = a.email := by
  unfold applyAccountKV
  simp only [apply_ite EmailAccount.email]
  split_ifs <;> first | rfl | (subst_vars; exact absurd ‹_ = _› (by decide))

theorem applyAccountKV_type (a : EmailAccount) (k v : JStr) :
    (applyAccountKV a k v).type = if k = toL "TYPE" then some v else a.type := by
  unfold applyAccountKV
  simp only [apply_ite EmailAccount.type]
  split_ifs <;> first | rfl | (subst_vars; exact absurd ‹_ = _› (by decide))

theorem applyAttachmentKV_name (a : EmailAttachment) (k v : JStr) :
    (applyAttachmentKV a k v).name = if k = toL "NAME" then some v else a.name := by
  unfold applyAttachmentKV
  simp only [apply_ite EmailAttachment.name]

theorem applyMessageKV_overwrite (m : EmailMessage) (k v₁ v₂ : JStr) :
    applyMessageKV (applyMessageKV m k v₁) k v₂ = applyMessageKV m k v₂ := by
  ext <;>
    simp only [applyMessageKV_id, applyMessageKV_subject, applyMessageKV_sender,
      applyMessageKV_recipients, applyMessageKV_date, applyMessageKV_read,
      applyMessageKV_flagged, applyMessageKV_mailbox, applyMessageKV_account,
      applyMessageKV_attachmentCount, applyMessageKV_hasAttachments,
      applyMessageKV_content] <;>
    (first | rfl | (split_ifs <;> rfl))

theorem applyMessageKV_comm (m : EmailMessage) (k₁ v₁ k₂ v₂ : JStr) (hne : k₁ ≠ k₂) :
    applyMessageKV (applyMessageKV m k₁ v₁) k₂ v₂
      = applyMessageKV (applyMessageKV m k₂ v₂) k₁ v₁ := by
  ext <;>
    simp only [applyMessageKV_id, applyMessageKV_subject, applyMessageKV_sender,
      applyMessageKV_recipients, applyMessageKV_date, applyMessageKV_read,
      applyMessageKV_flagged, applyMessageKV_mailbox, applyMessageKV_account,
      applyMessageKV_attachmentCount, applyMessageKV_hasAttachments,
      applyMessageKV_content] <;>
    (first | rfl | (split_ifs <;> first | rfl | (subst_vars; exact absurd rfl hne)))

theorem applyMailboxKV_overwrite (mb : Mailbox) (k v₁ v₂ : JStr) :
    applyMailboxKV (applyMailboxKV mb k v₁) k v₂ = applyMailboxKV mb k v₂ := by
  ext <;>
    simp only [applyMailboxKV_name, applyMailboxKV_account, applyMailboxKV_unreadCount,
      applyMailboxKV_totalCount] <;>
    (first | rfl | (split_ifs <;> rfl))

theorem applyMailboxKV_comm (mb : Mailbox) (k₁ v₁ k₂ v₂ : JStr) (hne : k₁ ≠ k₂) :
    applyMailboxKV (applyMailboxKV mb k₁ v₁) k₂ v₂
      = applyMailboxKV (applyMailboxKV mb k₂ v₂) k₁ v₁ := by
  ext <;>
    simp only [applyMailboxKV_name, applyMailboxKV_account, applyMailboxKV_unreadCount,
      applyMailboxKV_totalCount] <;>
    (first | rfl | (split_ifs <;> first | rfl | (subst_vars; exact absurd rfl hne)))

theorem applyAccountKV_overwrite (a : EmailAccount) (k v₁ v₂ : JStr) :
    applyAccountKV (applyAccountKV a k v₁) k v₂ = applyAccountKV a k v₂ := by
  ext <;>
    simp only [applyAccountKV_name, applyAccountKV_email, applyAccountKV_type] <;>
    (first | rfl | (split_ifs <;> rfl))

theorem applyAccountKV_comm (a : EmailAccount) (k₁ v₁ k₂ v₂ : JStr) (hne : k₁ ≠ k₂) :
    applyAccountKV (applyAccountKV a k₁ v₁) k₂ v₂
      = applyAccountKV (applyAccountKV a k₂ v₂) k₁ v₁ := by
  ext <;>
    simp only [applyAccountKV_name, applyAccountKV_email, applyAccountKV_type] <;>
    (first | rfl | (split_ifs <;> first | rfl | (subst_vars; exact absurd rfl hne)))

theorem applyAttachmentKV_overwrite (a : EmailAttachment) (k v₁ v₂ : JStr) :
    applyAttachmentKV (applyAttachmentKV a k v₁) k v₂ = applyAttachmentKV a k v₂ := by
  ext <;>
    simp only [applyAttachmentKV_name] <;>
    (first | rfl | (split_ifs <;> rfl))

theorem applyAttachmentKV_comm (a : EmailAttachment) (k₁ v₁ k₂ v₂ : JStr)
    (hne : k₁ ≠ k₂) :
    applyAttachmentKV (applyAttachmentKV a k₁ v₁) k₂ v₂
      = applyAttachmentKV (applyAttachmentKV a k₂ v₂) k₁ v₁ := by
  ext <;>
    simp only [applyAttachmentKV_name] <;>
    (first | rfl | (split_ifs <;> first | rfl | (subst_vars; exact absurd rfl hne)))

/-- Folding lines none of which carries the key of `l₀` commutes with the
pending assignment of `l₀`. -/
theorem foldl_comm_of_ne {α : Type} (g : α → JStr → α) (keyOf : JStr → JStr)
    (comm : ∀ (m : α) (l₁ l₂ : JStr), keyOf l₁ ≠ keyOf l₂ →
      g (g m l₁) l₂ = g (g m l₂) l₁) :
    ∀ (ls : List JStr) (m : α) (l₀ : JStr),
      (∀ l ∈ ls, keyOf l ≠ keyOf l₀) →
      List.foldl g (g m l₀) ls = g (List.foldl g m ls) l₀ := by
  intro ls
  induction ls with
  | nil => intro m l₀ _; rfl
  | cons l ls ih =>
    intro m l₀ h
    rw [List.foldl_cons, List.foldl_cons,
      comm m l₀ l (Ne.symm (h l (by simp)))]
    exact ih (g m l) l₀ (fun x hx => h x (by simp [hx]))

/-- Generic last-occurrence-wins: deleting from the part of a block that
precedes a line every earlier line with the same key does not change the
fold.  Follows from per-key overwriting and distinct-key commutation. -/
theorem lastWins_general {α : Type} (g : α → JStr → α) (keyOf : JStr → JStr)
    (absorb : ∀ (m : α) (l₁ l₂ : JStr), keyOf l₁ = keyOf l₂ →
      g (g m l₁) l₂ = g m l₂)
    (comm : ∀ (m : α) (l₁ l₂ : JStr), keyOf l₁ ≠ keyOf l₂ →
      g (g m l₁) l₂ = g (g m l₂) l₁) :
    ∀ (pre : List JStr) (m : α) (line : JStr) (suf : List JStr),
      List.foldl g m (pre ++ line :: suf)
        = List.foldl g m
            (pre.filter (fun l => !(decide (keyOf l = keyOf line))) ++ line :: suf) := by
  intro pre
  induction pre with
  | nil => intro m line suf; rfl
  | cons l pre' ih =>
    intro m line suf
    rw [List.cons_append, List.foldl_cons]
    by_cases hk : keyOf l = keyOf line
    · have hfil : (l :: pre').filter (fun x => !(decide (keyOf x = keyOf line)))
          = pre'.filter (fun x => !(decide (keyOf x = keyOf line))) := by
        rw [List.filter_cons_of_neg]
        simp [hk]
      rw [hfil, ih (g m l) line suf]
      have hF : ∀ x ∈ pre'.filter (fun x => !(decide (keyOf x = keyOf line))),
          keyOf x ≠ keyOf l := by
        intro x hx
        have hmem := List.mem_filter.mp hx
        rw [hk]
        simpa using hmem.2
      rw [List.foldl_append, List.foldl_append,
        foldl_comm_of_ne g keyOf comm _ m l hF,
        List.foldl_cons, List.foldl_cons,
        absorb _ l line hk]
    · have hfil : (l :: pre').filter (fun x => !(decide (keyOf x = keyOf line)))
          = l :: pre'.filter (fun x => !(decide (keyOf x = keyOf line))) := by
        rw [List.filter_cons_of_pos]
        simp [hk]
      rw [hfil, List.cons_append, List.foldl_cons]
      exact ih (g m l) line suf

theorem applyMessageLine_absorb (m : EmailMessage) (l₁ l₂ : JStr)
    (h : (parseLineKV l₁).1 = (parseLineKV l₂).1) :
    applyMessageLine (applyMessageLine m l₁) l₂ = applyMessageLine m l₂ := by
  unfold applyMessageLine
  rw [h, applyMessageKV_overwrite]

theorem applyMessageLine_comm (m : EmailMessage) (l₁ l₂ : JStr)
    (h : (parseLineKV l₁).1 ≠ (parseLineKV l₂).1) :
    applyMessageLine (applyMessageLine m l₁) l₂
      = applyMessageLine (applyMessageLine m l₂) l₁ := by
  unfold applyMessageLine
  exact applyMessageKV_comm m _ _ _ _ h

theorem applyMailboxLine_absorb (mb : Mailbox) (l₁ l₂ : JStr)
    (h : (parseLineKV l₁).1 = (parseLineKV l₂).1) :
    applyMailboxLine (applyMailboxLine mb l₁) l₂ = applyMailboxLine mb l₂ := by
  unfold applyMailboxLine
  rw [h, applyMailboxKV_overwrite]

theorem applyMailboxLine_comm (mb : Mailbox) (l₁ l₂ : JStr)
    (h : (parseLineKV l₁).1 ≠ (parseLineKV l₂).1) :
    applyMailboxLine (applyMailboxLine mb l₁) l₂
      = applyMailboxLine (applyMailboxLine mb l₂) l₁ := by
  unfold applyMailboxLine
  exact applyMailboxKV_comm mb _ _ _ _ h

theorem applyAccountLine_absorb (a : EmailAccount) (l₁ l₂ : JStr)
    (h : (parseLineKV l₁).1 = (parseLineKV l₂).1) :
    applyAccountLine (applyAccountLine a l₁) l₂ = applyAccountLine a l₂ := by
  unfold applyAccountLine
  rw [h, applyAccountKV_overwrite]

theorem applyAccountLine_comm (a : EmailAccount) (l₁ l₂ : JStr)
    (h : (parseLineKV l₁).1 ≠ (parseLineKV l₂).1) :
    applyAccountLine (applyAccountLine a l₁) l₂
      = applyAccountLine (applyAccountLine a l₂) l₁ := by
  unfold applyAccountLine
  exact applyAccountKV_comm a _ _ _ _ h

theorem applyAttachmentLine_absorb (a : EmailAttachment) (l₁ l₂ : JStr)
    (h : (parseLineKV l₁).1 = (parseLineKV l₂).1) :
    applyAttachmentLine (applyAttachmentLine a l₁) l₂ = applyAttachmentLine a l₂ := by
  unfold applyAttachmentLine
  rw [h, applyAttachmentKV_overwrite]

theorem applyAttachmentLine_comm (a : EmailAttachment) (l₁ l₂ : JStr)
    (h : (parseLineKV l₁).1 ≠ (parseLineKV l₂).1) :
    applyAttachmentLine (applyAttachmentLine a l₁) l₂
      = applyAttachmentLine (applyAttachmentLine a l₂) l₁ := by
  unfold applyAttachmentLine
  exact applyAttachmentKV_comm a _ _ _ _ h

/-! ### The claims -/

/-- C1 (amended): for every raw response consisting of well-formed blocks
and dangling/malformed fragments, each of the four parsers returns one
record per well-formed block whose required fields are present (messages:
truthy `ID` and `SUBJECT`; mailboxes: truthy `NAME` and an observed
`ACCOUNT` key; accounts: truthy `NAME` and `TYPE`; attachments: truthy
`NAME`) and drops every fragment; in particular
`"MAILBOX_START\nNAME:Inbox\n"` yields zero mailbox records. -/
theorem c1_parsers_blocks_roundtrip :
    (∀ ps, goodB (toL "MESSAGE_START") (toL "MESSAGE_END") ps = true →
      parseEmailMessages (renderPieces (toL "MESSAGE_START") (toL "MESSAGE_END") ps)
        = expectedRecords mkMessage ps) ∧
    (∀ ps, goodB (toL "MAILBOX_START") (toL "MAILBOX_END") ps = true →
      parseMailboxes (renderPieces (toL "MAILBOX_START") (toL "MAILBOX_END") ps)
        = expectedRecords mkMailbox ps) ∧
    (∀ ps, goodB (toL "ACCOUNT_START") (toL "ACCOUNT_END") ps = true →
      parseAccounts (renderPieces (toL "ACCOUNT_START") (toL "ACCOUNT_END") ps)
        = expectedRecords mkAccount ps) ∧
    (∀ ps, goodB (toL "ATTACHMENT_START") (toL "ATTACHMENT_END") ps = true →
      parseAttachments (renderPieces (toL "ATTACHMENT_START") (toL "ATTACHMENT_END") ps)
        = expectedRecords mkAttachment ps) ∧
    parseMailboxes (toL "MAILBOX_START\nNAME:Inbox\n") = [] :=
  ⟨fun ps hg => parseBlocksGen_renderPieces markerOk_message mkMessage ps hg,
   fun ps hg => parseBlocksGen_renderPieces markerOk_mailbox mkMailbox ps hg,
   fun ps hg => parseBlocksGen_renderPieces markerOk_account mkAccount ps hg,
   fun ps hg => parseBlocksGen_renderPieces markerOk_attachment mkAttachment ps hg,
   by decide⟩

/-- C1 falls as stated: this raw response is exactly one well-formed
message block (start marker line, a `KEY:value` field line, the matching
end marker) and no fragment, yet the parser returns zero records instead
of one, because the block lacks the required `ID`/`SUBJECT` fields. -/
theorem c1_counterexample_wellformed_block_dropped :
    renderPieces (toL "MESSAGE_START") (toL "MESSAGE_END")
        [Piece.block [toL "SENDER:a@b.com"]]
      = toL "MESSAGE_START\nSENDER:a@b.com\nMESSAGE_END\n" ∧
    parseEmailMessages (toL "MESSAGE_START\nSENDER:a@b.com\nMESSAGE_END\n") = [] :=
  ⟨by decide, by decide⟩

/-- C1 witness: a fragment, a valid block and a dangling start-marker
fragment parse to exactly the one block record. -/
theorem c1_witness :
    goodB (toL "MESSAGE_START") (toL "MESSAGE_END")
        [Piece.frag (toL "garbage"), Piece.block [toL "ID:1", toL "SUBJECT:Hi"],
         Piece.frag (toL "MESSAGE_START\nID:2\n")] = true ∧
    parseEmailMessages (renderPieces (toL "MESSAGE_START") (toL "MESSAGE_END")
        [Piece.frag (toL "garbage"), Piece.block [toL "ID:1", toL "SUBJECT:Hi"],
         Piece.frag (toL "MESSAGE_START\nID:2\n")])
      = expectedRecords mkMessage
          [Piece.frag (toL "garbage"), Piece.block [toL "ID:1", toL "SUBJECT:Hi"],
           Piece.frag (toL "MESSAGE_START\nID:2\n")] :=
  ⟨by decide,
   c1_parsers_blocks_roundtrip.1
     [Piece.frag (toL "garbage"), Piece.block [toL "ID:1", toL "SUBJECT:Hi"],
      Piece.frag (toL "MESSAGE_START\nID:2\n")] (by decide)⟩

/-- C2: the search script builder selects the source collection in the
precedence order mailbox+account, mailbox only, account only, default
inbox; a parameter is given when supplied as a non-empty string
(JavaScript truthiness of the optional parameter). -/
theorem c2_search_source_precedence :
    (∀ mailbox account : Option String,
      searchCollectionClause mailbox account
        = renderSearchSource (specSearchSource mailbox account)) ∧
    specSearchSource (some "Work") (some "iCloud")
      = SearchSource.mailboxOfAccount "Work" "iCloud" ∧
    specSearchSource (some "Work") none = SearchSource.mailboxOnly "Work" ∧
    specSearchSource none (some "iCloud") = SearchSource.accountAll "iCloud" ∧
    specSearchSource none none = SearchSource.defaultInbox := by
  refine ⟨?_, rfl, rfl, rfl, rfl⟩
  intro mailbox account
  cases hmb : jsTruthy mailbox <;> cases hacct : jsTruthy account <;>
    simp [searchCollectionClause, specSearchSource, renderSearchSource, hmb, hacct]

/-- C3: a message block lacking a truthy `ID` or `SUBJECT` never appears
in `parseEmailMessages` output; a block with `SUBJECT` but no `ID` (or
`ID` but no `SUBJECT`) is dropped silently, with no partial record and no
error. -/
theorem c3_required_fields_messages :
    (∀ (out : JStr) (m : EmailMessage), m ∈ parseEmailMessages out →
      truthy m.id = true ∧ truthy m.subject = true) ∧
    parseEmailMessages (toL "MESSAGE_START\nSUBJECT:Hi\nSENDER:a@b.com\nMESSAGE_END\n")
      = [] ∧
    parseEmailMessages (toL "MESSAGE_START\nID:1\nSENDER:a@b.com\nMESSAGE_END\n")
      = [] :=
  ⟨fun _ _ h => parseEmailMessages_mem h, by decide, by decide⟩

/-- C3 witness: the record parsed from a valid block is a member of the
output and satisfies the required-field invariant. -/
theorem c3_witness :
    truthy (EmailMessage.id { id := some (toL "1"), subject := some (toL "Hi") }) = true ∧
    truthy (EmailMessage.subject { id := some (toL "1"), subject := some (toL "Hi") })
      = true :=
  c3_required_fields_messages.1 (toL "MESSAGE_START\nID:1\nSUBJECT:Hi\nMESSAGE_END\n")
    { id := some (toL "1"), subject := some (toL "Hi") } (by decide)

/-- C4: whatever the identifier and mailbox/account hints, when the
subprocess resolves with the reserved sentinel `NOT_FOUND` the facade
returns the absent result, and a resolved subprocess never yields a
thrown failure. -/
theorem c4_not_found_sentinel :
    ∀ (messageId : JStr) (mailbox account : Option JStr),
      getEmailById messageId mailbox account (Except.ok (toL "NOT_FOUND"))
        = Except.ok none ∧
      ∀ result, ∃ v, getEmailById messageId mailbox account (Except.ok result)
        = Except.ok v := by
  intro messageId mailbox account
  constructor
  · rfl
  · intro result
    by_cases h : result = toL "NOT_FOUND"
    · refine ⟨none, ?_⟩
      show (if result = toL "NOT_FOUND" then (Except.ok none : Except JStr (Option EmailMessage))
            else Except.ok (parseEmailMessages result).head?) = Except.ok none
      rw [if_pos h]
    · refine ⟨(parseEmailMessages result).head?, ?_⟩
      show (if result = toL "NOT_FOUND" then (Except.ok none : Except JStr (Option EmailMessage))
            else Except.ok (parseEmailMessages result).head?)
          = Except.ok (parseEmailMessages result).head?
      rw [if_neg h]

/-- C5: `sendEmail` returns `{success:false, error}` carrying the
rejection's message when the subprocess invocation throws, and
`{success:true, messageId}` when it resolves; the throw never propagates
(the result type is a plain record, not an exception). -/
theorem c5_send_email_error_collapse :
    ∀ (draft : DraftEmail) (e messageId : JStr),
      sendEmail draft (Except.error e)
        = { success := false, messageId := none, error := some e } ∧
      sendEmail draft (Except.ok messageId)
        = { success := true, messageId := some messageId, error := none } :=
  fun _ _ _ => ⟨rfl, rfl⟩

/-- C6: `moveEmail` and `setReadStatus` collapse every thrown failure to
`false` and return `true` on success, never propagating an exception
(their result type is a plain boolean). -/
theorem c6_boolean_ops_collapse :
    ∀ (messageId targetMailbox : JStr) (targetAccount : Option JStr)
      (read : Bool) (e out : JStr),
      moveEmail messageId targetMailbox targetAccount (Except.error e) = false ∧
      moveEmail messageId targetMailbox targetAccount (Except.ok out) = true ∧
      setReadStatus messageId read (Except.error e) = false ∧
      setReadStatus messageId read (Except.ok out) = true :=
  fun _ _ _ _ _ _ => ⟨rfl, rfl, rfl, rfl⟩

/-- C7: within one block, whenever the same key occurs on several lines,
the later assignment overwrites the earlier one — for every recognized
key of every one of the four parsers: repeating any key's assignment
keeps only the later one, and for any line of a block, deleting from the
preceding lines every line with the same key does not change the folded
record, so the last occurrence alone decides the outcome; concretely, a
message block with `READ:true` followed by `READ:false` parses with
`read = false`. -/
theorem c7_duplicate_key_last_wins :
    (∀ (m : EmailMessage) (k v₁ v₂ : JStr),
      applyMessageKV (applyMessageKV m k v₁) k v₂ = applyMessageKV m k v₂) ∧
    (∀ (mb : Mailbox) (k v₁ v₂ : JStr),
      applyMailboxKV (applyMailboxKV mb k v₁) k v₂ = applyMailboxKV mb k v₂) ∧
    (∀ (a : EmailAccount) (k v₁ v₂ : JStr),
      applyAccountKV (applyAccountKV a k v₁) k v₂ = applyAccountKV a k v₂) ∧
    (∀ (a : EmailAttachment) (k v₁ v₂ : JStr),
      applyAttachmentKV (applyAttachmentKV a k v₁) k v₂ = applyAttachmentKV a k v₂) ∧
    (∀ (pre : List JStr) (m : EmailMessage) (line : JStr) (suf : List JStr),
      List.foldl applyMessageLine m (pre ++ line :: suf)
        = List.foldl applyMessageLine m
            (pre.filter (fun l => !(decide ((parseLineKV l).1 = (parseLineKV line).1)))
              ++ line :: suf)) ∧
    (∀ (pre : List JStr) (mb : Mailbox) (line : JStr) (suf : List JStr),
      List.foldl applyMailboxLine mb (pre ++ line :: suf)
        = List.foldl applyMailboxLine mb
            (pre.filter (fun l => !(decide ((parseLineKV l).1 = (parseLineKV line).1)))
              ++ line :: suf)) ∧
    (∀ (pre : List JStr) (a : EmailAccount) (line : JStr) (suf : List JStr),
      List.foldl applyAccountLine a (pre ++ line :: suf)
        = List.foldl applyAccountLine a
            (pre.filter (fun l => !(decide ((parseLineKV l).1 = (parseLineKV line).1)))
              ++ line :: suf)) ∧
    (∀ (pre : List JStr) (a : EmailAttachment) (line : JStr) (suf : List JStr),
      List.foldl applyAttachmentLine a (pre ++ line :: suf)
        = List.foldl applyAttachmentLine a
            (pre.filter (fun l => !(decide ((parseLineKV l).1 = (parseLineKV line).1)))
              ++ line :: suf)) ∧
    parseEmailMessages
        (toL "MESSAGE_START\nID:1\nSUBJECT:Hi\nREAD:true\nREAD:false\nMESSAGE_END\n")
      = [{ id := some (toL "1"), subject := some (toL "Hi"), read := some false }] :=
  ⟨applyMessageKV_overwrite, applyMailboxKV_overwrite, applyAccountKV_overwrite,
   applyAttachmentKV_overwrite,
   lastWins_general applyMessageLine (fun l => (parseLineKV l).1)
     applyMessageLine_absorb applyMessageLine_comm,
   lastWins_general applyMailboxLine (fun l => (parseLineKV l).1)
     applyMailboxLine_absorb applyMailboxLine_comm,
   lastWins_general applyAccountLine (fun l => (parseLineKV l).1)
     applyAccountLine_absorb applyAccountLine_comm,
   lastWins_general applyAttachmentLine (fun l => (parseLineKV l).1)
     applyAttachmentLine_absorb applyAttachmentLine_comm,
   by decide⟩

/-- C8 falls as stated: this block has a `NAME` field line (the key is
present, with an empty value) and an observed `ACCOUNT` key, yet no
record is emitted — emission additionally requires the `NAME` value to be
non-empty. -/
theorem c8_counterexample_empty_name :
    renderPieces (toL "MAILBOX_START") (toL "MAILBOX_END")
        [Piece.block [toL "NAME:", toL "ACCOUNT:Work"]]
      = toL "MAILBOX_START\nNAME:\nACCOUNT:Work\nMAILBOX_END\n" ∧
    parseMailboxes (toL "MAILBOX_START\nNAME:\nACCOUNT:Work\nMAILBOX_END\n") = [] :=
  ⟨by decide, by decide⟩

/-- C8 (amended): a mailbox block is emitted exactly when its folded
`NAME` value is truthy (present and non-empty) and its `ACCOUNT` key was
observed, regardless of the account value; and the account field is set
exactly when some line of the block carries the `ACCOUNT` key. -/
theorem c8_mailbox_emission_characterization :
    (∀ lines : List JStr,
      goodB (toL "MAILBOX_START") (toL "MAILBOX_END") [Piece.block lines] = true →
      parseMailboxes (renderPieces (toL "MAILBOX_START") (toL "MAILBOX_END")
          [Piece.block lines])
        = (if truthy ((lines.filter (fun l => !l.isEmpty)).foldl applyMailboxLine {}).name
              && ((lines.filter (fun l => !l.isEmpty)).foldl
                    applyMailboxLine {}).account.isSome
           then [(lines.filter (fun l => !l.isEmpty)).foldl applyMailboxLine {}]
           else [])) ∧
    (∀ lines : List JStr,
      ((lines.foldl applyMailboxLine {}).account.isSome)
        = lines.any (fun l => decide ((parseLineKV l).1 = toL "ACCOUNT"))) := by
  constructor
  · intro lines hg
    have h := parseBlocksGen_renderPieces markerOk_mailbox mkMailbox [Piece.block lines] hg
    unfold parseMailboxes
    rw [h]
    simp only [expectedRecords, List.filterMap_cons, List.filterMap_nil, mkMailbox]
    cases hc : truthy ((lines.filter (fun l => !l.isEmpty)).foldl applyMailboxLine {}).name
        && ((lines.filter (fun l => !l.isEmpty)).foldl applyMailboxLine {}).account.isSome
    · simp
    · simp
  · intro lines
    rw [foldl_mailbox_account]
    rfl

/-- C8 witness: a block with a non-empty `NAME` and an empty-valued
`ACCOUNT` line is kept (with account set to the empty string). -/
theorem c8_witness :
    goodB (toL "MAILBOX_START") (toL "MAILBOX_END")
        [Piece.block [toL "NAME:Inbox", toL "ACCOUNT:"]] = true ∧
    parseMailboxes (renderPieces (toL "MAILBOX_START") (toL "MAILBOX_END")
        [Piece.block [toL "NAME:Inbox", toL "ACCOUNT:"]])
      = (if truthy (([toL "NAME:Inbox", toL "ACCOUNT:"].filter
              (fun l => !l.isEmpty)).foldl applyMailboxLine {}).name
            && (([toL "NAME:Inbox", toL "ACCOUNT:"].filter
                  (fun l => !l.isEmpty)).foldl applyMailboxLine {}).account.isSome
         then [([toL "NAME:Inbox", toL "ACCOUNT:"].filter
                (fun l => !l.isEmpty)).foldl applyMailboxLine {}]
         else []) :=
  ⟨by decide,
   c8_mailbox_emission_characterization.1 [toL "NAME:Inbox", toL "ACCOUNT:"] (by decide)⟩

/-- C9: when the target message exists, invoking set-read-status twice
with the same value returns `true` both times, there is no distinct
"already set" outcome (the second run leaves the store unchanged), and the
message's read flag equals the requested value after either invocation. -/
theorem c9_set_read_status_idempotent :
    ∀ (store : MailStore) (mid : JStr) (rd : Bool),
      store.any (fun p => decide (p.1 = mid)) = true →
      (setReadStatusRun store mid rd).1 = true ∧
      lookupRead (setReadStatusRun store mid rd).2 mid = some rd ∧
      (setReadStatusRun (setReadStatusRun store mid rd).2 mid rd).1 = true ∧
      (setReadStatusRun (setReadStatusRun store mid rd).2 mid rd).2
        = (setReadStatusRun store mid rd).2 := by
  intro store mid rd h
  have h1 : setReadStatusRun store mid rd = (true, setFirstRead store mid rd) := by
    unfold setReadStatusRun runSetReadScript
    rw [if_pos h]
    rfl
  have hany2 : (setFirstRead store mid rd).any (fun p => decide (p.1 = mid)) = true := by
    rw [setFirstRead_any]
    exact h
  have h2 : setReadStatusRun (setFirstRead store mid rd) mid rd
      = (true, setFirstRead (setFirstRead store mid rd) mid rd) := by
    unfold setReadStatusRun runSetReadScript
    rw [if_pos hany2]
    rfl
  rw [h1]
  refine ⟨rfl, setFirstRead_lookup store mid rd h, ?_, ?_⟩
  · show (setReadStatusRun (setFirstRead store mid rd) mid rd).1 = true
    rw [h2]
  · show (setReadStatusRun (setFirstRead store mid rd) mid rd).2 = setFirstRead store mid rd
    rw [h2]
    exact setFirstRead_idem store mid rd

/-- C9 witness: on a one-message store, marking the message read twice
succeeds both times and leaves the flag set. -/
theorem c9_witness :
    (setReadStatusRun [(toL "1", false)] (toL "1") true).1 = true ∧
    lookupRead (setReadStatusRun [(toL "1", false)] (toL "1") true).2 (toL "1")
      = some true ∧
    (setReadStatusRun (setReadStatusRun [(toL "1", false)] (toL "1") true).2
        (toL "1") true).1 = true ∧
    (setReadStatusRun (setReadStatusRun [(toL "1", false)] (toL "1") true).2
        (toL "1") true).2
      = (setReadStatusRun [(toL "1", false)] (toL "1") true).2 :=
  c9_set_read_status_idempotent [(toL "1", false)] (toL "1") true (by decide)

/-- C10: a message record whose `ID` or `SUBJECT` line is present with an
empty value is dropped (required-field presence for messages is string
truthiness), while a mailbox block whose `ACCOUNT` line has an empty
value is kept with account set to the empty string (presence for the
account field is key observation). -/
theorem c10_empty_required_values_dropped :
    (∀ (out : JStr) (m : EmailMessage), m ∈ parseEmailMessages out →
      m.id ≠ some [] ∧ m.subject ≠ some []) ∧
    parseEmailMessages (toL "MESSAGE_START\nID:\nSUBJECT:Hi\nSENDER:a@b.com\nMESSAGE_END\n")
      = [] ∧
    parseMailboxes
        (toL "MAILBOX_START\nNAME:Inbox\nACCOUNT:\nUNREAD:2\nTOTAL:5\nMAILBOX_END\n")
      = [{ name := some (toL "Inbox"), account := some [], unreadCount := some 2,
           totalCount := some 5 }] :=
  ⟨fun _ m h =>
    ⟨truthy_ne_some_nil (parseEmailMessages_mem h).1,
     truthy_ne_some_nil (parseEmailMessages_mem h).2⟩,
   by decide, by decide⟩

/-- C10 witness: a record with non-empty required values is a member of
the output and its fields differ from the empty string. -/
theorem c10_witness :
    EmailMessage.id { id := some (toL "7"), subject := some (toL "Yo") } ≠ some [] ∧
    EmailMessage.subject { id := some (toL "7"), subject := some (toL "Yo") }
      ≠ some [] :=
  c10_empty_required_values_dropped.1 (toL "MESSAGE_START\nID:7\nSUBJECT:Yo\nMESSAGE_END\n")
    { id := some (toL "7"), subject := some (toL "Yo") } (by decide)

end AppleMailMCP
